import Mathlib

/-!
Verification of the `idpartners-ping-authorize` Kong Go plugin against its
design specification.

The Go sources are embedded shallowly: Go strings and byte slices are
modelled as `List Char` with one `Char` per byte (all concrete inputs used
in the theorems are ASCII, where the two notions coincide); Go maps are
modelled as association lists; fallible parsing returns `Option`.  Every
definition translates a concrete Go function of the repository, and is
named after it where possible.
-/

namespace PingAuth

/-- The character 0x7b (opening curly bracket), named so that JSON template
text can be assembled without bracket characters inside string literals. -/
def lbrace : Char := Char.ofNat 123

/-- The character 0x7d (closing curly bracket). -/
def rbrace : Char := Char.ofNat 125

/-- Model of Go `unicode.IsSpace` (the white-space set used by
`strings.TrimSpace` / `bytes.TrimSpace`). -/
def goIsSpace (c : Char) : Bool :=
  let n := c.toNat
  decide (n = 32 ∨ (9 ≤ n ∧ n ≤ 13) ∨ n = 133 ∨ n = 160 ∨ n = 0x1680 ∨
    (0x2000 ≤ n ∧ n ≤ 0x200A) ∨ n = 0x2028 ∨ n = 0x2029 ∨ n = 0x202F ∨
    n = 0x205F ∨ n = 0x3000)

/-- Trim leading Go white space (`bytes.TrimLeft` over the space set). -/
def trimLeftGo (s : List Char) : List Char := s.dropWhile goIsSpace

/-- Trim trailing Go white space. -/
def trimRightGo (s : List Char) : List Char := (s.reverse.dropWhile goIsSpace).reverse

/-- Model of Go `strings.TrimSpace` / `bytes.TrimSpace`. -/
def trimSpaceGo (s : List Char) : List Char := trimRightGo (trimLeftGo s)

/-- ASCII lower-casing of one character; model of Go `strings.ToLower` on
the ASCII range (the only range exercised by the plugin's header names and
content types). -/
def asciiToLower (c : Char) : Char :=
  if 65 ≤ c.toNat ∧ c.toNat ≤ 90 then Char.ofNat (c.toNat + 32) else c

/-- Lower-case a whole string. -/
def lowerStr (s : List Char) : List Char := s.map asciiToLower

/-- Decimal digit test (`'0' ≤ c ≤ '9'`). -/
def isDigit (c : Char) : Bool := decide (48 ≤ c.toNat ∧ c.toNat ≤ 57)

/-- Numeric value of the digits of a decimal string. -/
def digitsToNat (cs : List Char) : Nat := cs.foldl (fun a c => a * 10 + (c.toNat - 48)) 0

/-- Model of Go `strconv.Atoi`: optional sign, decimal digits only, error
(`none`) on empty input, stray characters, or 64-bit overflow. -/
def goAtoi (s : List Char) : Option Int :=
  match s with
  | [] => none
  | c :: rest =>
    let signAndDigits : Bool × List Char :=
      if c = '-' then (true, rest) else if c = '+' then (false, rest) else (false, s)
    let neg := signAndDigits.1
    let digits := signAndDigits.2
    if digits = [] then none
    else if ¬ digits.all isDigit then none
    else
      let n : Int := (digitsToNat digits : Int)
      let v := if neg then -n else n
      if v < -(2 ^ 63) ∨ v > 2 ^ 63 - 1 then none else some v

/-- Go `strconv.Atoi` with the fallback the plugin applies on parse failure. -/
def goAtoiOr (s : List Char) (dflt : Int) : Int :=
  match goAtoi s with
  | some n => n
  | none => dflt

/-! ### JSON

A small executable JSON parser modelling Go `encoding/json` closely enough
for the probes the plugin performs (`json.Valid`, `json.Unmarshal` into
structs with `string` and `json.RawMessage` fields, and into
`map[string]json.RawMessage`).  Object fields keep, next to the decoded
key and the parsed value, the raw text of the value, because Go's
`json.RawMessage` captures exactly those bytes. -/

/-- JSON white space (the set skipped by the `encoding/json` scanner). -/
def jsonIsWs (c : Char) : Bool := c == ' ' || c == '\t' || c == '\n' || c == '\r'

/-- Skip leading JSON white space. -/
def skipWs : List Char → List Char
  | [] => []
  | c :: cs => if jsonIsWs c then skipWs cs else c :: cs

/-- Hexadecimal value of one character, if any. -/
def hexVal (c : Char) : Option Nat :=
  if 48 ≤ c.toNat ∧ c.toNat ≤ 57 then some (c.toNat - 48)
  else if 97 ≤ c.toNat ∧ c.toNat ≤ 102 then some (c.toNat - 87)
  else if 65 ≤ c.toNat ∧ c.toNat ≤ 70 then some (c.toNat - 55)
  else none

/-- Parse the body of a JSON string literal (after the opening quote),
returning the decoded content and the remaining input.  Escapes follow
Go's `unquote`: `\uXXXX` pairs of surrogates combine, lone surrogates
become U+FFFD, and raw control characters are rejected. -/
def parseStrBody : Nat → List Char → Option (List Char × List Char)
  | 0, _ => none
  | _ + 1, [] => none
  | fuel + 1, c :: cs =>
    if c == '"' then some ([], cs)
    else if c == '\\' then
      match cs with
      | [] => none
      | e :: cs₁ =>
        if e == '"' then (parseStrBody fuel cs₁).map (fun r => ('"' :: r.1, r.2))
        else if e == '\\' then (parseStrBody fuel cs₁).map (fun r => ('\\' :: r.1, r.2))
        else if e == '/' then (parseStrBody fuel cs₁).map (fun r => ('/' :: r.1, r.2))
        else if e == 'b' then (parseStrBody fuel cs₁).map (fun r => (Char.ofNat 8 :: r.1, r.2))
        else if e == 'f' then (parseStrBody fuel cs₁).map (fun r => (Char.ofNat 12 :: r.1, r.2))
        else if e == 'n' then (parseStrBody fuel cs₁).map (fun r => ('\n' :: r.1, r.2))
        else if e == 'r' then (parseStrBody fuel cs₁).map (fun r => ('\r' :: r.1, r.2))
        else if e == 't' then (parseStrBody fuel cs₁).map (fun r => ('\t' :: r.1, r.2))
        else if e == 'u' then
          match cs₁ with
          | h₁ :: h₂ :: h₃ :: h₄ :: rest =>
            match hexVal h₁, hexVal h₂, hexVal h₃, hexVal h₄ with
            | some a, some b, some c', some d =>
              let n := ((a * 16 + b) * 16 + c') * 16 + d
              if decide (0xD800 ≤ n ∧ n ≤ 0xDFFF) then
                match rest with
                | '\\' :: 'u' :: g₁ :: g₂ :: g₃ :: g₄ :: rest₂ =>
                  match hexVal g₁, hexVal g₂, hexVal g₃, hexVal g₄ with
                  | some a₂, some b₂, some c₂, some d₂ =>
                    let m := ((a₂ * 16 + b₂) * 16 + c₂) * 16 + d₂
                    if decide (0xD800 ≤ n ∧ n ≤ 0xDBFF) && decide (0xDC00 ≤ m ∧ m ≤ 0xDFFF) then
                      (parseStrBody fuel rest₂).map
                        (fun r => (Char.ofNat (0x10000 + (n - 0xD800) * 0x400 + (m - 0xDC00)) :: r.1, r.2))
                    else
                      (parseStrBody fuel rest).map (fun r => (Char.ofNat 0xFFFD :: r.1, r.2))
                  | _, _, _, _ =>
                      (parseStrBody fuel rest).map (fun r => (Char.ofNat 0xFFFD :: r.1, r.2))
                | _ => (parseStrBody fuel rest).map (fun r => (Char.ofNat 0xFFFD :: r.1, r.2))
              else (parseStrBody fuel rest).map (fun r => (Char.ofNat n :: r.1, r.2))
            | _, _, _, _ => none
          | _ => none
        else none
    else if decide (c.toNat < 32) then none
    else (parseStrBody fuel cs).map (fun r => (c :: r.1, r.2))

/-- Parse a JSON number (RFC 8259 grammar), returning its raw text and the
remaining input. -/
def parseNum (cs : List Char) : Option (List Char × List Char) :=
  let signAndRest : List Char × List Char :=
    match cs with
    | '-' :: t => (['-'], t)
    | _ => ([], cs)
  let sign := signAndRest.1
  match signAndRest.2 with
  | [] => none
  | c :: t =>
    if ¬ isDigit c then none
    else
      let ipRest : List Char × List Char :=
        if c == '0' then ([c], t) else (c :: t.takeWhile isDigit, t.dropWhile isDigit)
      let ip := ipRest.1
      let fracRes : Option (List Char × List Char) :=
        match ipRest.2 with
        | '.' :: u =>
          if u.takeWhile isDigit = [] then none
          else some ('.' :: u.takeWhile isDigit, u.dropWhile isDigit)
        | r₁ => some ([], r₁)
      match fracRes with
      | none => none
      | some (fp, r₂) =>
        let expRes : Option (List Char × List Char) :=
          match r₂ with
          | e :: u =>
            if e == 'e' || e == 'E' then
              let sgRest : List Char × List Char :=
                match u with
                | '+' :: w => (['+'], w)
                | '-' :: w => (['-'], w)
                | _ => ([], u)
              if sgRest.2.takeWhile isDigit = [] then none
              else some (e :: sgRest.1 ++ sgRest.2.takeWhile isDigit, sgRest.2.dropWhile isDigit)
            else some ([], r₂)
          | [] => some ([], r₂)
        match expRes with
        | none => none
        | some (ep, r₃) => some (sign ++ ip ++ fp ++ ep, r₃)

/-- Parsed JSON values.  Object fields are `(decoded key, raw value text,
parsed value)` triples in document order, duplicates retained. -/
inductive Json where
  | null : Json
  | bool : Bool → Json
  | num : List Char → Json
  | str : List Char → Json
  | arr : List Json → Json
  | obj : List (List Char × List Char × Json) → Json

/-- Parser position: at the start of a value, inside an object's field
list, or inside an array's item list (with the fields or items parsed so
far). -/
inductive JMode where
  | val : JMode
  | objf : Bool → List (List Char × List Char × Json) → JMode
  | arrf : Bool → List Json → JMode

/-- Recursive JSON parser.  In mode `val` the head of the input is the
first character of a value (leading white space already skipped); the
other modes sit just after `\x7b` / `[` or after a comma.  `fuel` strictly
decreases on every recursive call and is chosen large enough by
`jsonParse` that it never runs out. -/
def jparseStep : Nat → JMode → List Char → Option (Json × List Char)
  | 0, _, _ => none
  | _ + 1, JMode.val, [] => none
  | fuel + 1, JMode.val, c :: cs =>
    if c == '"' then (parseStrBody (fuel + 1) cs).map (fun r => (Json.str r.1, r.2))
    else if c == lbrace then jparseStep fuel (JMode.objf true []) (skipWs cs)
    else if c == '[' then jparseStep fuel (JMode.arrf true []) (skipWs cs)
    else if c == 'n' then
      match cs with
      | 'u' :: 'l' :: 'l' :: rest => some (Json.null, rest)
      | _ => none
    else if c == 't' then
      match cs with
      | 'r' :: 'u' :: 'e' :: rest => some (Json.bool true, rest)
      | _ => none
    else if c == 'f' then
      match cs with
      | 'a' :: 'l' :: 's' :: 'e' :: rest => some (Json.bool false, rest)
      | _ => none
    else (parseNum (c :: cs)).map (fun r => (Json.num r.1, r.2))
  | _ + 1, JMode.objf _ _, [] => none
  | fuel + 1, JMode.objf first acc, c :: cs =>
    if c == rbrace && first then some (Json.obj acc, cs)
    else if c == '"' then
      match parseStrBody (fuel + 1) cs with
      | none => none
      | some (key, r₁) =>
        match skipWs r₁ with
        | ':' :: r₂ =>
          let v₀ := skipWs r₂
          match jparseStep fuel JMode.val v₀ with
          | none => none
          | some (v, r₃) =>
            let raw := v₀.take (v₀.length - r₃.length)
            match skipWs r₃ with
            | ',' :: r₄ => jparseStep fuel (JMode.objf false (acc ++ [(key, raw, v)])) (skipWs r₄)
            | d :: r₄ => if d == rbrace then some (Json.obj (acc ++ [(key, raw, v)]), r₄) else none
            | [] => none
        | _ => none
    else none
  | _ + 1, JMode.arrf _ _, [] => none
  | fuel + 1, JMode.arrf first acc, c :: cs =>
    if c == ']' && first then some (Json.arr acc, cs)
    else
      match jparseStep fuel JMode.val (c :: cs) with
      | none => none
      | some (v, r₁) =>
        match skipWs r₁ with
        | ',' :: r₂ => jparseStep fuel (JMode.arrf false (acc ++ [v])) (skipWs r₂)
        | d :: r₂ => if d == ']' then some (Json.arr (acc ++ [v]), r₂) else none
        | [] => none

/-- Parse a complete JSON document: one value surrounded only by white
space.  This is the shape accepted by both `json.Valid` and
`json.Unmarshal`. -/
def jsonParse (cs : List Char) : Option Json :=
  let s := skipWs cs
  match jparseStep (2 * s.length + 8) JMode.val s with
  | some (v, rest) => if skipWs rest = [] then some v else none
  | none => none

/-- Model of Go `json.Valid`. -/
def jsonValid (cs : List Char) : Bool := (jsonParse cs).isSome

/-- Last object field whose key matches `name` case-insensitively, as Go's
struct decoder resolves fields (later duplicates overwrite earlier ones);
returns the raw value text and the parsed value.  `name` is given in lower
case. -/
def lastField (fs : List (List Char × List Char × Json)) (name : List Char) :
    Option (List Char × Json) :=
  fs.foldl (fun acc f => if lowerStr f.1 = name then some (f.2.1, f.2.2) else acc) none

/-- Effective value decoded into a Go `string` struct field: every matching
occurrence must be a JSON string or `null` (anything else makes
`json.Unmarshal` report an error, modelled as `none`); `null` leaves the
previous value, strings overwrite it; no occurrence leaves the zero value
`""`. -/
def decodeStrField (fs : List (List Char × List Char × Json)) (name : List Char) :
    Option (List Char) :=
  fs.foldl
    (fun acc f =>
      match acc with
      | none => none
      | some cur =>
        if lowerStr f.1 = name then
          match f.2.2 with
          | Json.str s => some s
          | Json.null => some cur
          | _ => none
        else some cur)
    (some [])

/-- Last object field with the exactly matching decoded key, as a decode
into `map[string]json.RawMessage` resolves duplicates. -/
def mapFieldLast (fs : List (List Char × List Char × Json)) (name : List Char) :
    Option (List Char × Json) :=
  fs.foldl (fun acc f => if f.1 = name then some (f.2.1, f.2.2) else acc) none

/-! ### Header codec (`headers.go`) -/

/-- Go `FormatHeaders`: convert a standard header map (association list of
name to value list) to the Sideband array-of-single-entry-objects wire
form.  Names are lower-cased; multi-value headers produce multiple
entries.  (The Go function's error result is always `nil`.) -/
def FormatHeaders (headers : List (List Char × List (List Char))) :
    List (List Char × List Char) :=
  headers.flatMap (fun nv => nv.2.map (fun v => (lowerStr nv.1, v)))

/-- One step of `FlattenHeaders`: `result[k] = append(result[k], v)` on a
Go map modelled as an association list with unique keys. -/
def appendHeaderValue (m : List (List Char × List (List Char))) (k : List Char) (v : List Char) :
    List (List Char × List (List Char)) :=
  match m with
  | [] => [(k, [v])]
  | e :: rest => if e.1 = k then (e.1, e.2 ++ [v]) :: rest else e :: appendHeaderValue rest k v

/-- Go `FlattenHeaders`: convert the Sideband wire form back to a header map,
lower-casing names and collecting duplicate names in encounter order. -/
def FlattenHeaders (headers : List (List Char × List Char)) :
    List (List Char × List (List Char)) :=
  headers.foldl (fun acc e => appendHeaderValue acc (lowerStr e.1) e.2) []

/-- Go map lookup on the association-list model (keys are unique). -/
def lookupVals (m : List (List Char × List (List Char))) (k : List Char) :
    Option (List (List Char)) :=
  match m with
  | [] => none
  | e :: rest => if e.1 = k then some e.2 else lookupVals rest k

/-- Wire-entry values that land under key `k` after lower-casing, in
encounter order. -/
def gatherVals (ws : List (List Char × List Char)) (k : List Char) : List (List Char) :=
  ws.filterMap (fun e => if lowerStr e.1 = k then some e.2 else none)

/-! ### MCP module (`mcp.go`, `types.go`) -/

/-- Go `MCPContext` of `types.go`; raw-JSON fields (`mcp_tool_arguments`,
`mcp_jsonrpc_id`) keep the captured bytes, `none` standing for a nil
`json.RawMessage`. -/
structure MCPContext where
  method : List Char := []
  toolName : List Char := []
  toolArguments : Option (List Char) := none
  resourceURI : List Char := []
  promptName : List Char := []
  jsonrpcID : Option (List Char) := none
deriving DecidableEq

/-- Go `mcpMethods` membership: `IsMCPMethod`. -/
def IsMCPMethod (method : List Char) : Bool :=
  method = "tools/call".data ∨ method = "tools/list".data ∨
  method = "resources/read".data ∨ method = "resources/list".data ∨
  method = "prompts/get".data ∨ method = "prompts/list".data ∨
  method = "initialize".data

/-- Go `isMCPMethodRetryable`: linear scan of the configured retry list. -/
def isMCPMethodRetryable (method : List Char) (retryMethods : List (List Char)) : Bool :=
  retryMethods.any (fun m => m = method)

/-- Decode of a body into the Go struct `JsonRPCRequest` (fields
`jsonrpc`, `method` : string; `id`, `params` : `json.RawMessage`).
`none` models `json.Unmarshal` returning an error; note that a top-level
JSON `null` decodes with no error into the zero struct. -/
def goDecodeJsonRPCRequest (body : List Char) :
    Option (List Char × List Char × Option (List Char) × Option (List Char)) :=
  match jsonParse body with
  | some (Json.obj fs) =>
    match decodeStrField fs ("jsonrpc".data), decodeStrField fs ("method".data) with
    | some j, some m =>
      some (j, m, (lastField fs ("id".data)).map (·.1), (lastField fs ("params".data)).map (·.1))
    | _, _ => none
  | some Json.null => some ([], [], none, none)
  | _ => none

/-- Go `extractMCPParams`: decode `params` into `map[string]json.RawMessage`
and pull out the method-specific fields.  Any failure leaves the context
unchanged, exactly as the Go code silently returns. -/
def extractMCPParams (method : List Char) (params : List Char) (ctx : MCPContext) : MCPContext :=
  match jsonParse params with
  | some (Json.obj fs) =>
    if method = "tools/call".data then
      let ctx₁ :=
        match mapFieldLast fs ("name".data) with
        | some (_, Json.str s) => { ctx with toolName := s }
        | some (_, Json.null) => { ctx with toolName := [] }
        | _ => ctx
      match mapFieldLast fs ("arguments".data) with
      | some (raw, _) => { ctx₁ with toolArguments := some raw }
      | none => ctx₁
    else if method = "resources/read".data then
      match mapFieldLast fs ("uri".data) with
      | some (_, Json.str s) => { ctx with resourceURI := s }
      | some (_, Json.null) => { ctx with resourceURI := [] }
      | _ => ctx
    else if method = "prompts/get".data then
      match mapFieldLast fs ("name".data) with
      | some (_, Json.str s) => { ctx with promptName := s }
      | some (_, Json.null) => { ctx with promptName := [] }
      | _ => ctx
    else ctx
  | _ => ctx

/-- Go `ParseMCPRequest`: returns the extracted MCP context, or `none` when
the body is empty, fails to decode, lacks `jsonrpc == "2.0"`, or carries
an unrecognized method. -/
def ParseMCPRequest (body : List Char) : Option MCPContext :=
  if body = [] then none
  else
    match goDecodeJsonRPCRequest body with
    | none => none
    | some (j, m, idRaw, paramsRaw) =>
      if j ≠ "2.0".data then none
      else if ¬ IsMCPMethod m then none
      else
        let ctx : MCPContext := { method := m, jsonrpcID := idRaw }
        match paramsRaw with
        | some praw => some (extractMCPParams m praw ctx)
        | none => some ctx

/-- Go `httpStatusToJsonRPCError`: the fixed HTTP to JSON-RPC code table. -/
def httpStatusToJsonRPCError (statusCode : Int) : Int :=
  if statusCode = 400 then -32600
  else if statusCode = 401 ∨ statusCode = 403 then -32600
  else if statusCode = 404 then -32601
  else if statusCode = 429 then -32000
  else if statusCode = 500 then -32603
  else if statusCode = 502 ∨ statusCode = 503 then -32000
  else if 400 ≤ statusCode ∧ statusCode < 500 then -32600
  else -32603

/-! ### The `encoding/json` encoder, as far as the plugin marshals

`json.Marshal` with the default `SetEscapeHTML(true)` escapes `<`, `>`,
`&`, U+2028 and U+2029 in string literals, and compacts `json.RawMessage`
fields (dropping white space outside string literals and applying the same
escapes). -/

/-- Lower-case hexadecimal digit. -/
def hexDigit (n : Nat) : Char := if n < 10 then Char.ofNat (48 + n) else Char.ofNat (87 + n)

/-- Escape one character of a string literal the way Go's JSON encoder
does (HTML escaping enabled). -/
def jsonEscChar (c : Char) : List Char :=
  if c = '"' then ['\\', '"']
  else if c = '\\' then ['\\', '\\']
  else if c = '\n' then ['\\', 'n']
  else if c = '\r' then ['\\', 'r']
  else if c = '\t' then ['\\', 't']
  else if decide (c.toNat < 32) then
    ['\\', 'u', '0', '0', hexDigit (c.toNat / 16), hexDigit (c.toNat % 16)]
  else if c = '<' then "\\u003c".data
  else if c = '>' then "\\u003e".data
  else if c = '&' then "\\u0026".data
  else if c.toNat = 0x2028 then "\\u2028".data
  else if c.toNat = 0x2029 then "\\u2029".data
  else [c]

/-- Marshal a Go string to a JSON string literal. -/
def jsonQuote (s : List Char) : List Char := '"' :: (s.flatMap jsonEscChar ++ ['"'])

/-- Worker for `compactRaw`, tracking whether the scanner is inside a
string literal. -/
def compactRawGo : Bool → List Char → List Char
  | _, [] => []
  | inStr, c :: cs =>
    if inStr then
      if c = '\\' then
        match cs with
        | d :: cs' => '\\' :: d :: compactRawGo true cs'
        | [] => ['\\']
      else if c = '"' then '"' :: compactRawGo false cs
      else if c = '<' then "\\u003c".data ++ compactRawGo true cs
      else if c = '>' then "\\u003e".data ++ compactRawGo true cs
      else if c = '&' then "\\u0026".data ++ compactRawGo true cs
      else if c.toNat = 0x2028 then "\\u2028".data ++ compactRawGo true cs
      else if c.toNat = 0x2029 then "\\u2029".data ++ compactRawGo true cs
      else c :: compactRawGo true cs
    else
      if jsonIsWs c then compactRawGo false cs
      else if c = '"' then '"' :: compactRawGo true cs
      else if c = '<' then "\\u003c".data ++ compactRawGo false cs
      else if c = '>' then "\\u003e".data ++ compactRawGo false cs
      else if c = '&' then "\\u0026".data ++ compactRawGo false cs
      else if c.toNat = 0x2028 then "\\u2028".data ++ compactRawGo false cs
      else if c.toNat = 0x2029 then "\\u2029".data ++ compactRawGo false cs
      else c :: compactRawGo false cs

/-- Re-encoding Go's `json.Marshal` applies to a (valid) `json.RawMessage`:
white space outside string literals is dropped and the HTML characters are
escaped. -/
def compactRaw (s : List Char) : List Char := compactRawGo false s

/-- Go `formatMCPDenyResponse`: `json.Marshal` of the `JsonRPCError` struct.
A nil `jsonrpcID` marshals as `null`; an invalid raw id makes `Marshal`
fail, and the ignored error (`body, _ := json.Marshal(resp)`) leaves a nil
body. -/
def formatMCPDenyResponse (statusCode : Int) (message : List Char)
    (jsonrpcID : Option (List Char)) : List Char :=
  let errCode := httpStatusToJsonRPCError statusCode
  let idPart : Option (List Char) :=
    match jsonrpcID with
    | none => some ("null".data)
    | some raw => if jsonValid raw then some (compactRaw raw) else none
  match idPart with
  | none => []
  | some idStr =>
    ("\x7b\"jsonrpc\":\"2.0\",\"id\":".data) ++ idStr ++
    (",\"error\":\x7b\"code\":".data) ++ (toString errCode).data ++
    (",\"message\":".data) ++ jsonQuote message ++ ("\x7d\x7d".data)

/-! ### SSE final-message extraction (`sse.go`) -/

/-- Go `isSSEContentType`: case-insensitive, `TrimSpace`-tolerant prefix test
for `text/event-stream`. -/
def isSSEContentType (contentType : List Char) : Bool :=
  ("text/event-stream".data).isPrefixOf (lowerStr (trimSpaceGo contentType))

/-- Go `isJsonRPCResponse`: the body decodes as an object whose `jsonrpc`
field is `"2.0"` and whose captured `id` raw message is nonempty (any
present `id`, including `null`, captures at least one byte). -/
def isJsonRPCResponse (data : List Char) : Bool :=
  match jsonParse data with
  | some (Json.obj fs) =>
    decide (decodeStrField fs ("jsonrpc".data) = some ("2.0".data)) &&
    (lastField fs ("id".data)).isSome
  | _ => false

/-- One line of the `ParseSSEFinalMessage` loop: the candidate payload it
yields, if the line updates `lastValidJSON` (the `data:` prefix is
stripped by dropping its five bytes, `bytes.TrimPrefix`). -/
def sseLineCandidate (line : List Char) : Option (List Char) :=
  if ("data:".data).isPrefixOf (trimSpaceGo line) then
    if trimSpaceGo ((trimSpaceGo line).drop 5) = [] then none
    else if jsonValid (trimSpaceGo ((trimSpaceGo line).drop 5)) &&
        isJsonRPCResponse (trimSpaceGo ((trimSpaceGo line).drop 5)) then
      some (trimSpaceGo ((trimSpaceGo line).drop 5))
    else none
  else none

/-- Go `ParseSSEFinalMessage`: split on LF, keep the last valid JSON-RPC
response among the `data:` payloads, or return the body unchanged. -/
def ParseSSEFinalMessage (body : List Char) (contentType : List Char) : List Char :=
  if ¬ isSSEContentType contentType then body
  else if body = [] then body
  else
    match (body.splitOn '\n').foldl
        (fun acc line =>
          match sseLineCandidate line with
          | some d => some d
          | none => acc)
        none with
    | some d => d
    | none => body

/-- The candidate payloads of a body, in the words of the specification:
split on LF, trim each line, take the lines beginning with `data:`, strip
the prefix and trim, and keep the payloads that are valid JSON with
`jsonrpc == "2.0"` and a nonempty `id`. -/
def sseSpecCandidates (body : List Char) : List (List Char) :=
  ((body.splitOn '\n').filterMap (fun line =>
    let t := trimSpaceGo line
    if ("data:".data).isPrefixOf t then some (trimSpaceGo (t.drop 5)) else none)).filter
    (fun d => jsonValid d && isJsonRPCResponse d)

/-- SSE extraction exactly as the specification sentence describes it:
content types not beginning with `text/event-stream` (case-insensitive,
tolerating leading white space) are returned unchanged; otherwise the last
candidate payload is returned, or the input when none exists. -/
def sseSpecExtract (body contentType : List Char) : List Char :=
  if ¬ (("text/event-stream".data).isPrefixOf (lowerStr (trimLeftGo contentType))) then body
  else
    match (sseSpecCandidates body).getLast? with
    | some d => d
    | none => body

/-! ### Circuit breaker and retry loop (`circuit_breaker.go`, `network.go`) -/

/-- Go `CircuitBreakerTrigger` of `circuit_breaker.go`. -/
inductive CircuitBreakerTrigger where
  | TriggerNone : CircuitBreakerTrigger
  | Trigger429 : CircuitBreakerTrigger
  | Trigger5xx : CircuitBreakerTrigger
  | TriggerTimeout : CircuitBreakerTrigger
deriving DecidableEq

/-- Go `defaultRetryAfterSec = 30`. -/
def defaultRetryAfterSec : Int := 30

/-- Go `CircuitBreakerOpenError`: the typed rejection carrying the trigger
and the remaining open time. -/
structure CircuitBreakerOpenError where
  trigger : CircuitBreakerTrigger
  retryAfterSec : Int
  remainingMs : Int
deriving DecidableEq

/-- Go `CircuitBreaker` state (the mutex is irrelevant to the sequential
model); `openedAtMs` stands for `openedAt` on a millisecond clock. -/
structure CircuitBreaker where
  enabled : Bool
  closed : Bool
  openedAtMs : Int
  retryAfterSec : Int
  triggerType : CircuitBreakerTrigger
deriving DecidableEq

/-- Go `Trip`: open the breaker; a non-positive requested duration falls back
to the 30-second default.  `nowMs` stands for `time.Now()`. -/
def CircuitBreaker.Trip (cb : CircuitBreaker) (trigger : CircuitBreakerTrigger)
    (retryAfterSec : Int) (nowMs : Int) : CircuitBreaker :=
  if ¬ cb.enabled then cb
  else
    { cb with
      closed := false
      openedAtMs := nowMs
      triggerType := trigger
      retryAfterSec := if retryAfterSec > 0 then retryAfterSec else defaultRetryAfterSec }

/-- Go `Allow`: pass when disabled or closed, lazily close when the retry
window has elapsed, otherwise reject with a snapshot. -/
def CircuitBreaker.Allow (cb : CircuitBreaker) (nowMs : Int) :
    CircuitBreaker × Option CircuitBreakerOpenError :=
  if ¬ cb.enabled then (cb, none)
  else if cb.closed then (cb, none)
  else
    let elapsed := nowMs - cb.openedAtMs
    let retryDurationMs := cb.retryAfterSec * 1000
    if elapsed ≥ retryDurationMs then
      ({ cb with closed := true, triggerType := CircuitBreakerTrigger.TriggerNone }, none)
    else
      (cb, some ⟨cb.triggerType, cb.retryAfterSec, retryDurationMs - elapsed⟩)

/-- Header lookup modelling `http.Header.Get` (case-insensitive first
match; `[]` stands for the empty string returned when absent). -/
def headerGet (hs : List (List Char × List Char)) (name : List Char) : List Char :=
  match hs.find? (fun p => lowerStr p.1 = lowerStr name) with
  | some p => p.2
  | none => []

/-- Go `parseRetryAfter`: the `Retry-After` value as positive integer
seconds, else the 30-second default. -/
def parseRetryAfter (hs : List (List Char × List Char)) : Int :=
  if headerGet hs ("Retry-After".data) = [] then defaultRetryAfterSec
  else
    match goAtoi (headerGet hs ("Retry-After".data)) with
    | none => defaultRetryAfterSec
    | some secs => if secs ≤ 0 then defaultRetryAfterSec else secs

/-- Outcome of one `doRequest` call: transport error, or an HTTP status
with response headers and body. -/
inductive AttemptResult where
  | connErr : AttemptResult
  | http : Int → List (List Char × List Char) → List Char → AttemptResult

/-- The `lastErr`/`lastStatus`/`lastHeaders`/`lastBody` loop variables of
`Execute`. -/
structure LoopState where
  lastErr : Bool
  lastStatus : Int
  lastHeaders : List (List Char × List Char)
  lastBody : List Char

/-- What `Execute` produces: how many HTTP attempts were issued, the
`Trip` call performed (trigger and requested duration), and the returned
status/headers/body/error quadruple. -/
structure ExecOutcome where
  attempts : Nat
  trip : Option (CircuitBreakerTrigger × Int)
  status : Int
  headers : List (List Char × List Char)
  body : List Char
  isError : Bool
deriving DecidableEq

/-- The post-loop logic of `Execute`: trip the breaker per the final
failure and return the last response or the bare error. -/
def execFinish (st : LoopState) (attempts : Nat) : ExecOutcome :=
  let trip : Option (CircuitBreakerTrigger × Int) :=
    if st.lastErr then
      if st.lastStatus ≥ 500 then some (CircuitBreakerTrigger.Trigger5xx, defaultRetryAfterSec)
      else if st.lastStatus = 0 then some (CircuitBreakerTrigger.TriggerTimeout, defaultRetryAfterSec)
      else none
    else none
  if st.lastStatus > 0 then ⟨attempts, trip, st.lastStatus, st.lastHeaders, st.lastBody, st.lastErr⟩
  else ⟨attempts, trip, 0, [], [], st.lastErr⟩

/-- The retry loop of `Execute`, driven by an oracle giving the result of
each attempt.  `attempt` is the index of the next attempt, `budget` the
remaining attempts of `maxAttempts`. -/
def execLoop (oracle : Nat → AttemptResult) : Nat → Nat → LoopState → ExecOutcome
  | attempt, 0, st => execFinish st attempt
  | attempt, budget + 1, st =>
    match oracle attempt with
    | AttemptResult.connErr => execLoop oracle (attempt + 1) budget ⟨true, 0, [], []⟩
    | AttemptResult.http statusCode respHeaders respBody =>
      if statusCode = 429 then
        ⟨attempt + 1, some (CircuitBreakerTrigger.Trigger429, parseRetryAfter respHeaders),
          429, respHeaders, respBody, false⟩
      else if statusCode ≥ 500 then
        execLoop oracle (attempt + 1) budget ⟨true, statusCode, respHeaders, respBody⟩
      else
        ⟨attempt + 1, none, statusCode, respHeaders, respBody, false⟩

/-- The attempt budget of `Execute`: `1 + max_retries`, capped at 1 for a
non-retryable MCP method (empty `mcpMethod` means a non-MCP call). -/
def maxAttemptsFor (maxRetries : Nat) (mcpMethod : List Char)
    (mcpRetryMethods : List (List Char)) : Nat :=
  if mcpMethod ≠ [] ∧ isMCPMethodRetryable mcpMethod mcpRetryMethods = false then 1
  else 1 + maxRetries

/-- Go `Execute` of `network.go` after the circuit-breaker `Allow` check (the
lines the retry claims cite): run up to `maxAttemptsFor` attempts. -/
def Execute (maxRetries : Nat) (mcpMethod : List Char) (mcpRetryMethods : List (List Char))
    (oracle : Nat → AttemptResult) : ExecOutcome :=
  execLoop oracle 0 (maxAttemptsFor maxRetries mcpMethod mcpRetryMethods) ⟨false, 0, [], []⟩

/-- Whether the retry loop moves past this attempt (transport error or
5xx). -/
def retryableAttempt : AttemptResult → Bool
  | AttemptResult.connErr => true
  | AttemptResult.http s _ _ => decide (s ≥ 500)

/-! ### Orchestrator data and handlers (`config.go`, `response.go`,
`types.go`) -/

/-- A `kong.Response.Exit(status, body, headers)` call.  A nil body is
modelled as `[]`; the headers map is an association list in the literal
order of the Go source. -/
structure ExitCall where
  status : Int
  body : List Char
  headers : List (List Char × List (List Char))
deriving DecidableEq

/-- Go `JWK` of `types.go` (string fields, `x5c` a possibly-nil slice). -/
structure JWK where
  kty : List Char := []
  n : List Char := []
  e : List Char := []
  crv : List Char := []
  x : List Char := []
  y : List Char := []
  x5c : Option (List (List Char)) := none
deriving DecidableEq

/-- Go `SidebandAccessRequest` of `types.go`; wire headers as singleton
entries, `extractedHeaders` an association-list map. -/
structure SidebandAccessRequest where
  sourceIP : List Char := []
  sourcePort : List Char := []
  method : List Char := []
  url : List Char := []
  body : List Char := []
  headers : List (List Char × List Char) := []
  httpVersion : List Char := []
  clientCertificate : Option JWK := none
  trafficType : List Char := []
  mcp : Option MCPContext := none
  extractedHeaders : List (List Char × List Char) := []
deriving DecidableEq

/-- Go `DenyResponse` of `types.go`. -/
structure DenyResponse where
  responseCode : List Char := []
  responseStatus : List Char := []
  body : List Char := []
  headers : List (List Char × List Char) := []
deriving DecidableEq

/-- Go `SidebandAccessResponse` of `types.go` (fields the handler reads). -/
structure SidebandAccessResponse where
  method : List Char := []
  url : List Char := []
  body : Option (List Char) := none
  headers : List (List Char × List Char) := []
  state : Option (List Char) := none
  response : Option DenyResponse := none
deriving DecidableEq

/-- Go `SidebandResponsePayload` of `types.go`. -/
structure SidebandResponsePayload where
  method : List Char := []
  url : List Char := []
  body : List Char := []
  responseCode : List Char := []
  responseStatus : List Char := []
  headers : List (List Char × List Char) := []
  httpVersion : List Char := []
  state : Option (List Char) := none
  request : Option SidebandAccessRequest := none
  trafficType : List Char := []
  mcp : Option MCPContext := none
deriving DecidableEq

/-- Go `SidebandResponseResult` of `types.go`. -/
structure SidebandResponseResult where
  responseCode : List Char := []
  body : List Char := []
  headers : List (List Char × List Char) := []
  message : List Char := []
  id : List Char := []
deriving DecidableEq

/-- What the access phase does with the provider's reply: short-circuit
with a client response (deny), or allow and return the opaque state. -/
inductive AccessOutcome where
  | denied : ExitCall → AccessOutcome
  | allowed : Option (List Char) → AccessOutcome
deriving DecidableEq

/-- Go `handleAccessResponse` (`config.go`): a present `response` field means
deny — parse its code (403 on failure) and either wrap the body as a
JSON-RPC error (MCP traffic with `mcp_jsonrpc_errors`) or pass the deny
body and flattened headers through; an absent `response` field means
allow (the request-mutation side effects of `updateRequest` are outside
this value-level model) and yields the opaque state. -/
def handleAccessResponse (mcpJsonrpcErrors : Bool) (payloadMCP : Option MCPContext)
    (resp : SidebandAccessResponse) : AccessOutcome :=
  match resp.response with
  | some deny =>
    let statusCode := goAtoiOr deny.responseCode 403
    match payloadMCP with
    | some m =>
      if mcpJsonrpcErrors then
        AccessOutcome.denied ⟨statusCode,
          formatMCPDenyResponse statusCode deny.body m.jsonrpcID,
          [("Content-Type".data, ["application/json".data])]⟩
      else AccessOutcome.denied ⟨statusCode, deny.body, FlattenHeaders deny.headers⟩
    | none => AccessOutcome.denied ⟨statusCode, deny.body, FlattenHeaders deny.headers⟩
  | none => AccessOutcome.allowed resp.state

/-- Go `ensureValidJsonRPC` (`config.go`): validate a provider-modified MCP
body, but return the body unchanged on every path (failures only log). -/
def ensureValidJsonRPC (body : List Char) (mcpCtx : MCPContext) : List Char :=
  match goDecodeJsonRPCRequest body with
  | none => body
  | some (j, _, _, _) => if j ≠ "2.0".data then body else body

/-- Go `statusStrings` lookup: `getStatusString`. -/
def getStatusString (code : Int) : List Char :=
  if code = 200 then "OK".data
  else if code = 400 then "BAD REQUEST".data
  else if code = 401 then "UNAUTHORIZED".data
  else if code = 404 then "NOT FOUND".data
  else if code = 413 then "PAYLOAD TOO LARGE".data
  else if code = 429 then "TOO MANY REQUESTS".data
  else if code = 500 then "INTERNAL SERVER ERROR".data
  else if code = 503 then "SERVICE UNAVAILABLE".data
  else []

/-- Go `preservedResponseHeaders` (`response.go`): the upstream response
headers documented as always preserved. -/
def preservedResponseHeaders : List (List Char) :=
  ["content-length".data, "date".data, "connection".data, "vary".data]

/-- Go `handleResponseResult` (`response.go`): parse the provider's
`response_code` (200 on failure), flatten its headers, and exit with
exactly that status, body and headers.  The loop over the upstream
headers consulting `preservedResponseHeaders` has an empty body in the Go
source, so it contributes nothing: `kong.Response.Exit` receives only the
flattened policy headers. -/
def handleResponseResult (result : SidebandResponseResult)
    (upstreamHeaders : List (List Char × List (List Char))) : ExitCall :=
  let statusCode := goAtoiOr result.responseCode 200
  let policyHeaders := FlattenHeaders result.headers
  ⟨statusCode, result.body, policyHeaders⟩

/-- The rate-limit response body
`\x7b"code":"LIMIT_EXCEEDED","message":"… N second."\x7d`. -/
def limitExceededBody (remainingSec : Int) : List Char :=
  ("\x7b\"code\":\"LIMIT_EXCEEDED\",\"message\":\"The request exceeded the allowed rate limit. Please try after ".data)
    ++ (toString remainingSec).data ++ (" second.\"\x7d".data)

/-- The value `N = ceil(remaining_ms / 1000)` with a minimum of 1, exactly as the Go
code computes it (`(RemainingMs + 999) / 1000`, 64-bit truncated
division). -/
def remainingSecOf (remainingMs : Int) : Int :=
  if Int.tdiv (remainingMs + 999) 1000 < 1 then 1 else Int.tdiv (remainingMs + 999) 1000

/-- Go `handleCircuitBreakerError` (`config.go`, access phase): 429 triggers
answer 429 with `Retry-After` (JSON-RPC-shaped body for MCP traffic when
configured, else the `LIMIT_EXCEEDED` body); other triggers pass through
on fail-open (`none` = no `Exit` call) or answer 502. -/
def handleCircuitBreakerError (mcpJsonrpcErrors failOpen : Bool)
    (payloadMCP : Option MCPContext) (cbErr : CircuitBreakerOpenError) : Option ExitCall :=
  if cbErr.trigger = CircuitBreakerTrigger.Trigger429 then
    let remainingSec := remainingSecOf cbErr.remainingMs
    match payloadMCP with
    | some m =>
      if mcpJsonrpcErrors then
        let msg := ("Service temporarily unavailable. Retry after ".data)
          ++ (toString remainingSec).data ++ (" seconds.".data)
        some ⟨429, formatMCPDenyResponse 429 msg m.jsonrpcID,
          [("Content-Type".data, ["application/json".data]),
           ("Retry-After".data, [(toString remainingSec).data])]⟩
      else
        some ⟨429, limitExceededBody remainingSec,
          [("Content-Type".data, ["application/json".data]),
           ("Retry-After".data, [(toString remainingSec).data])]⟩
    | none =>
      some ⟨429, limitExceededBody remainingSec,
        [("Content-Type".data, ["application/json".data]),
         ("Retry-After".data, [(toString remainingSec).data])]⟩
  else if failOpen then none
  else
    match payloadMCP with
    | some m =>
      if mcpJsonrpcErrors then
        some ⟨502, formatMCPDenyResponse 502 ("Service temporarily unavailable.".data) m.jsonrpcID,
          [("Content-Type".data, ["application/json".data])]⟩
      else some ⟨502, [], []⟩
    | none => some ⟨502, [], []⟩

/-- Go `handleCircuitBreakerErrorResponse` (`response.go`): identical logic
in the response phase, reading the MCP context off the stored original
request. -/
def handleCircuitBreakerErrorResponse (mcpJsonrpcErrors failOpen : Bool)
    (originalRequestMCP : Option MCPContext) (cbErr : CircuitBreakerOpenError) :
    Option ExitCall :=
  if cbErr.trigger = CircuitBreakerTrigger.Trigger429 then
    let remainingSec := remainingSecOf cbErr.remainingMs
    match originalRequestMCP with
    | some m =>
      if mcpJsonrpcErrors then
        let msg := ("Service temporarily unavailable. Retry after ".data)
          ++ (toString remainingSec).data ++ (" seconds.".data)
        some ⟨429, formatMCPDenyResponse 429 msg m.jsonrpcID,
          [("Content-Type".data, ["application/json".data]),
           ("Retry-After".data, [(toString remainingSec).data])]⟩
      else
        some ⟨429, limitExceededBody remainingSec,
          [("Content-Type".data, ["application/json".data]),
           ("Retry-After".data, [(toString remainingSec).data])]⟩
    | none =>
      some ⟨429, limitExceededBody remainingSec,
        [("Content-Type".data, ["application/json".data]),
         ("Retry-After".data, [(toString remainingSec).data])]⟩
  else if failOpen then none
  else
    match originalRequestMCP with
    | some m =>
      if mcpJsonrpcErrors then
        some ⟨502, formatMCPDenyResponse 502 ("Service temporarily unavailable.".data) m.jsonrpcID,
          [("Content-Type".data, ["application/json".data])]⟩
      else some ⟨502, [], []⟩
    | none => some ⟨502, [], []⟩

/-! ### Marshalling the access payload (`observability.go`, `config.go`) -/

/-- Byte-wise lexicographic order on strings (the order in which
`json.Marshal` emits Go map keys). -/
def charListLt : List Char → List Char → Bool
  | [], [] => false
  | [], _ :: _ => true
  | _ :: _, [] => false
  | a :: as', b :: bs => if a.toNat < b.toNat then true
      else if b.toNat < a.toNat then false else charListLt as' bs

/-- Insert into a key-sorted association list. -/
def insSortedByKey (x : List Char × List Char) :
    List (List Char × List Char) → List (List Char × List Char)
  | [] => [x]
  | y :: ys => if charListLt x.1 y.1 then x :: y :: ys else y :: insSortedByKey x ys

/-- Sort an association list by key, as `json.Marshal` sorts map keys. -/
def sortByKey (l : List (List Char × List Char)) : List (List Char × List Char) :=
  l.foldr insSortedByKey []

/-- Go `json.Marshal` of a `JWK` value (string fields with `omitempty`
except `x5c`, whose nil slice marshals as `null`). -/
def goMarshalJWK (j : JWK) : List Char :=
  [lbrace] ++ ("\"kty\":".data) ++ jsonQuote j.kty
  ++ (if j.n = [] then [] else (",\"n\":".data) ++ jsonQuote j.n)
  ++ (if j.e = [] then [] else (",\"e\":".data) ++ jsonQuote j.e)
  ++ (if j.crv = [] then [] else (",\"crv\":".data) ++ jsonQuote j.crv)
  ++ (if j.x = [] then [] else (",\"x\":".data) ++ jsonQuote j.x)
  ++ (if j.y = [] then [] else (",\"y\":".data) ++ jsonQuote j.y)
  ++ (",\"x5c\":".data)
  ++ (match j.x5c with
      | none => "null".data
      | some xs => ['['] ++ List.intercalate [','] (xs.map jsonQuote) ++ [']'])
  ++ [rbrace]

/-- Go `json.Marshal` of an `MCPContext` value (raw-message fields re-encoded
by `compactRaw`; empty raw messages and empty strings are omitted by
`omitempty`). -/
def goMarshalMCPContext (m : MCPContext) : List Char :=
  [lbrace] ++ ("\"mcp_method\":".data) ++ jsonQuote m.method
  ++ (if m.toolName = [] then [] else (",\"mcp_tool_name\":".data) ++ jsonQuote m.toolName)
  ++ (match m.toolArguments with
      | some raw => if raw = [] then [] else (",\"mcp_tool_arguments\":".data) ++ compactRaw raw
      | none => [])
  ++ (if m.resourceURI = [] then [] else (",\"mcp_resource_uri\":".data) ++ jsonQuote m.resourceURI)
  ++ (if m.promptName = [] then [] else (",\"mcp_prompt_name\":".data) ++ jsonQuote m.promptName)
  ++ (match m.jsonrpcID with
      | some raw => if raw = [] then [] else (",\"mcp_jsonrpc_id\":".data) ++ compactRaw raw
      | none => [])
  ++ [rbrace]

/-- Go `json.Marshal` of a `SidebandAccessRequest` (the `payloadBytes` whose
length `composeAccessPayload` compares against
`max_sideband_body_bytes`). -/
def goMarshalAccessRequest (r : SidebandAccessRequest) : List Char :=
  [lbrace] ++ ("\"source_ip\":".data) ++ jsonQuote r.sourceIP
  ++ (",\"source_port\":".data) ++ jsonQuote r.sourcePort
  ++ (",\"method\":".data) ++ jsonQuote r.method
  ++ (",\"url\":".data) ++ jsonQuote r.url
  ++ (",\"body\":".data) ++ jsonQuote r.body
  ++ (",\"headers\":".data) ++ ['[']
  ++ List.intercalate [',']
      (r.headers.map (fun e => [lbrace] ++ jsonQuote e.1 ++ [':'] ++ jsonQuote e.2 ++ [rbrace]))
  ++ [']']
  ++ (",\"http_version\":".data) ++ jsonQuote r.httpVersion
  ++ (match r.clientCertificate with
      | some j => (",\"client_certificate\":".data) ++ goMarshalJWK j
      | none => [])
  ++ (if r.trafficType = [] then [] else (",\"traffic_type\":".data) ++ jsonQuote r.trafficType)
  ++ (match r.mcp with
      | some m => (",\"mcp\":".data) ++ goMarshalMCPContext m
      | none => [])
  ++ (if r.extractedHeaders = [] then []
      else (",\"extracted_headers\":".data) ++ [lbrace]
        ++ List.intercalate [',']
            ((sortByKey r.extractedHeaders).map (fun e => jsonQuote e.1 ++ [':'] ++ jsonQuote e.2))
        ++ [rbrace])
  ++ [rbrace]

/-- Go `TruncateBody` (`observability.go`): no-op when `maxBytes ≤ 0` or the
body already fits, else cut at `maxBytes` and append the marker carrying
the original length. -/
def TruncateBody (body : List Char) (maxBytes : Int) : List Char :=
  if maxBytes ≤ 0 ∨ (body.length : Int) ≤ maxBytes then body
  else body.take maxBytes.toNat ++ ("... [truncated, ".data)
    ++ (toString body.length).data ++ (" bytes]".data)

/-- The payload-size enforcement at the end of `composeAccessPayload`
(`config.go`): when a positive limit is exceeded by the marshalled
payload, truncate the `body` field to half the limit.  (`json.Marshal`
cannot fail on this struct, so the `marshalErr == nil` guard always
holds.) -/
def enforceSidebandBodyLimit (maxSidebandBodyBytes : Int) (req : SidebandAccessRequest) :
    SidebandAccessRequest :=
  if maxSidebandBodyBytes > 0 then
    let payloadBytes := goMarshalAccessRequest req
    if (payloadBytes.length : Int) > maxSidebandBodyBytes then
      { req with body := TruncateBody req.body (Int.tdiv maxSidebandBodyBytes 2) }
    else req
  else req

/-! ### Response payload composition (`response.go`) -/

/-- Go `getResponseContentType`: first header whose name equals
`content-type` case-insensitively and has a value. -/
def getResponseContentType (headers : List (List Char × List (List Char))) : List Char :=
  match headers.find? (fun e => decide (lowerStr e.1 = "content-type".data) && decide (e.2 ≠ [])) with
  | some e =>
    match e.2 with
    | v :: _ => v
    | [] => []
  | none => []

/-- The base `SidebandResponsePayload` literal built by
`composeResponsePayload` before state and MCP attachment. -/
def composeResponseBase (method url : List Char) (responseBody : List Char)
    (statusCode : Int) (formattedHeaders : List (List Char × List Char))
    (httpVersion : List Char) : SidebandResponsePayload :=
  { method := method
    url := url
    body := responseBody
    responseCode := (toString statusCode).data
    responseStatus := getStatusString statusCode
    headers := formattedHeaders
    httpVersion := httpVersion }

/-- The mutually exclusive `state` / `request` attachment of
`composeResponsePayload`. -/
def attachStateOrRequest (p : SidebandResponsePayload) (state : List Char)
    (originalRequest : Option SidebandAccessRequest) : SidebandResponsePayload :=
  if state ≠ [] then { p with state := some state }
  else
    match originalRequest with
    | some r => { p with request := some r }
    | none => p

/-- The MCP attachment of `composeResponsePayload`: a fresh parse of the
(possibly SSE-extracted) response body wins, else the MCP context carried
on the original request. -/
def attachResponseMCP (enableMCP : Bool) (p : SidebandResponsePayload)
    (originalRequest : Option SidebandAccessRequest) : SidebandResponsePayload :=
  if enableMCP then
    match ParseMCPRequest p.body with
    | some mcpCtx => { p with trafficType := "mcp".data, mcp := some mcpCtx }
    | none =>
      match originalRequest with
      | some r =>
        match r.mcp with
        | some m => { p with trafficType := "mcp".data, mcp := some m }
        | none => p
      | none => p
  else p

/-- The response body `composeResponsePayload` forwards: the SSE
final-message extraction applies when MCP is enabled and the upstream
`Content-Type` is `text/event-stream`. -/
def responseBodyAfterSSE (enableMCP : Bool)
    (responseHeaders : List (List Char × List (List Char)))
    (responseBodyBytes : List Char) : List Char :=
  if enableMCP then
    if isSSEContentType (getResponseContentType responseHeaders) then
      ParseSSEFinalMessage responseBodyBytes (getResponseContentType responseHeaders)
    else responseBodyBytes
  else responseBodyBytes

/-- Go `composeResponsePayload` (`response.go`) as a function of the values
the Kong PDK getters return: SSE extraction of the body, header
formatting, status-text mapping, state-or-request attachment, MCP
attachment. -/
def composeResponsePayload (enableMCP : Bool) (method url : List Char)
    (responseBodyBytes : List Char) (statusCode : Int)
    (responseHeaders : List (List Char × List (List Char))) (httpVersion : List Char)
    (originalRequest : Option SidebandAccessRequest) (state : List Char) :
    SidebandResponsePayload :=
  attachResponseMCP enableMCP
    (attachStateOrRequest
      (composeResponseBase method url
        (responseBodyAfterSSE enableMCP responseHeaders responseBodyBytes)
        statusCode (FormatHeaders responseHeaders) httpVersion)
      state originalRequest)
    originalRequest

/-- Go `loadPerRequestContext` (`response.go`) over the three stored context
strings (`none` models a `GetSharedString` error, which aborts the phase
with 500; the request and MCP deserializers are parameters, standing for
`json.Unmarshal` into the respective structs).  On success the returned
request is always present — the Go function returns `&req` of a stack
variable, never nil. -/
def loadPerRequestContext
    (unmarshalReq : List Char → Option SidebandAccessRequest)
    (unmarshalMCP : List Char → Option MCPContext)
    (reqStr : Option (List Char)) (mcpStr : Option (List Char))
    (stateStr : Option (List Char)) :
    Option (SidebandAccessRequest × Option (List Char)) :=
  match reqStr with
  | none => none
  | some rs =>
    let base : Option SidebandAccessRequest :=
      if rs = [] then some {} else unmarshalReq rs
    match base with
    | none => none
    | some r =>
      let r₁ :=
        match mcpStr with
        | some ms =>
          if ms = [] then r
          else
            match unmarshalMCP ms with
            | some m => { r with mcp := some m, trafficType := "mcp".data }
            | none => r
        | none => r
      let st : Option (List Char) :=
        match stateStr with
        | some ss => if ss = [] then none else some ss
        | none => none
      some (r₁, st)

/-- The deny body the claim about MCP denials predicts: the JSON-RPC error
template with the id inserted verbatim. -/
def mcpDenyTemplate (code : Int) (idRaw : List Char) (message : List Char) : List Char :=
  ("\x7b\"jsonrpc\":\"2.0\",\"id\":".data) ++ idRaw ++
  (",\"error\":\x7b\"code\":".data) ++ (toString code).data ++
  (",\"message\":".data) ++ jsonQuote message ++ ("\x7d\x7d".data)

/-! ### Concrete instances used by the counterexamples and witnesses -/

/-- Provider result with status 200 and no headers. -/
def c1result : SidebandResponseResult := { responseCode := "200".data, body := "ok".data }

/-- Upstream response headers carrying two of the headers the design lists
as always preserved. -/
def c1upstream : List (List Char × List (List Char)) :=
  [("Date".data, ["Mon, 01 Jan 2024 00:00:00 GMT".data]),
   ("Content-Length".data, ["2".data])]

/-- An MCP context for a `tools/call` request with integer id 1. -/
def c2ctx : MCPContext := { method := "tools/call".data, jsonrpcID := some ("1".data) }

/-- A rate-limit circuit-open error with 4.5 seconds remaining. -/
def c2cbErr : CircuitBreakerOpenError :=
  { trigger := CircuitBreakerTrigger.Trigger429, retryAfterSec := 5, remainingMs := 4500 }

/-- A header map with a key whose value list is empty. -/
def c3emptyValMap : List (List Char × List (List Char)) := [("a".data, [])]

/-- A header map exercising case normalisation and multi-valued keys. -/
def c3map : List (List Char × List (List Char)) :=
  [("Accept".data, ["text/html".data, "text/plain".data]), ("X-B".data, ["1".data])]

/-- Oracle whose every attempt is rate-limited with `Retry-After: 5`. -/
def c4oracle : Nat → AttemptResult :=
  fun _ => AttemptResult.http 429 [("Retry-After".data, "5".data)] ("ratelimited".data)

/-- Oracle whose every attempt returns HTTP 500. -/
def c5oracle : Nat → AttemptResult := fun _ => AttemptResult.http 500 [] []

/-- A deny decision with status 403. -/
def c7deny : DenyResponse :=
  { responseCode := "403".data, responseStatus := "FORBIDDEN".data, body := "denied".data,
    headers := [("x-policy".data, "p1".data)] }

/-- A provider access reply carrying the deny decision. -/
def c7resp : SidebandAccessResponse := { response := some c7deny }

/-- MCP context whose JSON-RPC id is the string `"<"` — valid JSON that
Go's encoder does not reproduce byte-identically. -/
def c7ctxBad : MCPContext := { method := "tools/call".data, jsonrpcID := some ("\"<\"".data) }

/-- MCP context with the integer id 1. -/
def c7ctxGood : MCPContext := { method := "tools/call".data, jsonrpcID := some ("1".data) }

/-- An access payload with an empty body (its serialized form still
exceeds small limits because of the envelope fields). -/
def c8smallReq : SidebandAccessRequest :=
  { sourceIP := "10.0.0.1".data, sourcePort := "12345".data, method := "POST".data,
    url := "https://api.example.com/mcp".data, body := [],
    headers := [("content-type".data, "application/json".data)], httpVersion := "1.1".data,
    mcp := some c2ctx, trafficType := "mcp".data }

/-- An access payload with a 200-byte body. -/
def c8bigReq : SidebandAccessRequest :=
  { c8smallReq with body := List.replicate 200 'a' }

/-- A stored original request used by the response-phase witnesses. -/
def c9req : SidebandAccessRequest :=
  { sourceIP := "10.0.0.1".data, sourcePort := "7".data, method := "GET".data,
    url := "https://svc/resource".data, httpVersion := "1.1".data }

/-- A nonempty opaque provider state. -/
def c9state : List Char := "\x7b\"session\":\"s1\"\x7d".data

end PingAuth

/-! ## Theorems -/

namespace PingAuth

/-- C10: the MCP body-validation step applied to a provider-modified
request body, `ensureValidJsonRPC`, is the identity on the body: it
returns its input unchanged on every path, whether or not the body parses
as JSON-RPC 2.0, so the provider's modified body is always installed
verbatim. -/
theorem c10_ensure_jsonrpc_identity (body : List Char) (mcpCtx : MCPContext) :
    ensureValidJsonRPC body mcpCtx = body := by
  unfold ensureValidJsonRPC
  cases goDecodeJsonRPCRequest body with
  | none => rfl
  | some v =>
    obtain ⟨j, rest⟩ := v
    dsimp only
    split <;> rfl

/-- C1 (code bug): evaluating `handleResponseResult` at a provider result
with status 200, body `ok` and no headers while the upstream response
carries `Date` and `Content-Length` shows that the client-facing response
consists of exactly the provider's status, body and flattened headers,
and that the headers named in `preservedResponseHeaders` are *not*
preserved: the upstream had `date` and `content-length`, both are in the
preserved list, and neither appears in the response handed to
`kong.Response.Exit`. -/
theorem c1_preserved_headers_dropped :
    handleResponseResult c1result c1upstream = ⟨200, "ok".data, []⟩ ∧
    ("date".data ∈ preservedResponseHeaders ∧ "content-length".data ∈ preservedResponseHeaders) ∧
    (lookupVals (c1upstream.map (fun e => (lowerStr e.1, e.2))) ("date".data)).isSome = true ∧
    lookupVals (handleResponseResult c1result c1upstream).headers ("date".data) = none ∧
    lookupVals (handleResponseResult c1result c1upstream).headers ("content-length".data) = none := by
  refine ⟨by decide, ⟨by decide, by decide⟩, by decide, by decide, by decide⟩

/-- C2 (amended): a rate-limit circuit-open error is answered with HTTP
429, the `LIMIT_EXCEEDED` body and a `Retry-After: N` header — in both
phases — provided MCP JSON-RPC error shaping is not active for the
request (`mcp_jsonrpc_errors` off, or no MCP context); and
`N = ceil(remaining_ms/1000)` with a minimum of 1. -/
theorem c2_rate_limit_response (mje fo : Bool) (pm : Option MCPContext)
    (cbErr : CircuitBreakerOpenError)
    (htrig : cbErr.trigger = CircuitBreakerTrigger.Trigger429)
    (hnomcp : ¬ (mje = true ∧ pm.isSome = true)) :
    (handleCircuitBreakerError mje fo pm cbErr =
      some ⟨429, limitExceededBody (remainingSecOf cbErr.remainingMs),
        [("Content-Type".data, ["application/json".data]),
         ("Retry-After".data, [(toString (remainingSecOf cbErr.remainingMs)).data])]⟩) ∧
    (handleCircuitBreakerErrorResponse mje fo pm cbErr =
      some ⟨429, limitExceededBody (remainingSecOf cbErr.remainingMs),
        [("Content-Type".data, ["application/json".data]),
         ("Retry-After".data, [(toString (remainingSecOf cbErr.remainingMs)).data])]⟩) ∧
    (∀ msN : Nat, cbErr.remainingMs = (msN : Int) →
      remainingSecOf cbErr.remainingMs = ((max 1 ((msN + 999) / 1000) : Nat) : Int)) := by
  have hsec : ∀ msN : Nat, cbErr.remainingMs = (msN : Int) →
      remainingSecOf cbErr.remainingMs = ((max 1 ((msN + 999) / 1000) : Nat) : Int) := by
    intro msN h
    rw [h]
    unfold remainingSecOf
    have ht : Int.tdiv ((msN : Int) + 999) 1000 = (((msN + 999) / 1000 : Nat) : Int) := by
      rw [show ((msN : Int) + 999) = ((msN + 999 : Nat) : Int) by push_cast; ring]
      exact (Int.ofNat_tdiv _ _).symm
    rw [ht]
    split
    · rename_i hlt
      omega
    · rename_i hge
      omega
  refine ⟨?_, ?_, hsec⟩
  · unfold handleCircuitBreakerError
    rw [htrig]
    cases pm with
    | none => simp
    | some m =>
      have hm : mje = false := by
        cases mje
        · rfl
        · exact absurd ⟨rfl, rfl⟩ hnomcp
      subst hm
      simp
  · unfold handleCircuitBreakerErrorResponse
    rw [htrig]
    cases pm with
    | none => simp
    | some m =>
      have hm : mje = false := by
        cases mje
        · rfl
        · exact absurd ⟨rfl, rfl⟩ hnomcp
      subst hm
      simp

/-- C2 (counterexample): with `mcp_jsonrpc_errors` enabled and an MCP
request, the rate-limit circuit-open error is answered with a JSON-RPC
error body, not the `LIMIT_EXCEEDED` body the claim promises for every
rate-limit circuit-open error. -/
theorem c2_counterexample :
    (handleCircuitBreakerError true false (some c2ctx) c2cbErr).map ExitCall.body ≠
      some (limitExceededBody 5) := by decide

/-- C2 (witness): the amended theorem applied at the concrete rate-limit
error with 4500 ms remaining (`N = 5`). -/
theorem c2_witness :
    handleCircuitBreakerError false false none c2cbErr =
      some ⟨429, limitExceededBody 5,
        [("Content-Type".data, ["application/json".data]),
         ("Retry-After".data, ["5".data])]⟩ :=
  (c2_rate_limit_response false false none c2cbErr rfl (by simp)).1

/-- The attempt counter `execFinish` reports is the one it was given. -/
theorem execFinish_attempts (st : LoopState) (n : Nat) : (execFinish st n).attempts = n := by
  simp only [execFinish]
  split <;> rfl

/-- The trip `execFinish` performs, spelled out. -/
theorem execFinish_trip (st : LoopState) (n : Nat) :
    (execFinish st n).trip =
      (if st.lastErr then
        (if st.lastStatus ≥ 500 then some (CircuitBreakerTrigger.Trigger5xx, defaultRetryAfterSec)
         else if st.lastStatus = 0 then some (CircuitBreakerTrigger.TriggerTimeout, defaultRetryAfterSec)
         else none)
       else none) := by
  simp only [execFinish]
  split <;> rfl

/-- The retry loop never issues more attempts than its budget. -/
theorem execLoop_attempts_le (oracle : Nat → AttemptResult) :
    ∀ (budget attempt : Nat) (st : LoopState),
      (execLoop oracle attempt budget st).attempts ≤ attempt + budget := by
  intro budget
  induction budget with
  | zero =>
    intro attempt st
    simp [execLoop, execFinish_attempts]
  | succ b ih =>
    intro attempt st
    cases h : oracle attempt with
    | connErr =>
      calc (execLoop oracle attempt (b + 1) st).attempts
          = (execLoop oracle (attempt + 1) b ⟨true, 0, [], []⟩).attempts := by
            simp [execLoop, h]
        _ ≤ (attempt + 1) + b := ih (attempt + 1) _
        _ ≤ attempt + (b + 1) := by omega
    | http s hs bd =>
      by_cases h429 : s = 429
      · have : (execLoop oracle attempt (b + 1) st).attempts = attempt + 1 := by
          simp [execLoop, h, h429]
        omega
      · by_cases h5 : s ≥ 500
        · calc (execLoop oracle attempt (b + 1) st).attempts
              = (execLoop oracle (attempt + 1) b ⟨true, s, hs, bd⟩).attempts := by
                simp [execLoop, h, h429, h5]
            _ ≤ (attempt + 1) + b := ih (attempt + 1) _
            _ ≤ attempt + (b + 1) := by omega
        · have : (execLoop oracle attempt (b + 1) st).attempts = attempt + 1 := by
            simp [execLoop, h, h429, h5]
          omega

/-- With a budget of one, the retry loop issues exactly one attempt. -/
theorem execLoop_budget_one (oracle : Nat → AttemptResult) (attempt : Nat) (st : LoopState) :
    (execLoop oracle attempt 1 st).attempts = attempt + 1 := by
  cases h : oracle attempt with
  | connErr => simp [execLoop, h, execFinish_attempts]
  | http s hs bd =>
    by_cases h429 : s = 429
    · simp [execLoop, h, h429]
    · by_cases h5 : s ≥ 500
      · simp [execLoop, h, h429, h5, execFinish_attempts]
      · simp [execLoop, h, h429, h5]

/-- If every attempt before index `attempt + i` is retried over (transport
error or 5xx) and attempt `attempt + i` answers 429 within the budget,
the loop stops right there: it trips with `Trigger429` and the parsed
`Retry-After`, and returns the 429 response. -/
theorem execLoop_first_429 (oracle : Nat → AttemptResult) :
    ∀ (i attempt budget : Nat) (st : LoopState) (hs : List (List Char × List Char)) (b : List Char),
      i < budget →
      (∀ j, j < i → retryableAttempt (oracle (attempt + j)) = true) →
      oracle (attempt + i) = AttemptResult.http 429 hs b →
      execLoop oracle attempt budget st =
        ⟨attempt + i + 1, some (CircuitBreakerTrigger.Trigger429, parseRetryAfter hs),
          429, hs, b, false⟩ := by
  intro i
  induction i with
  | zero =>
    intro attempt budget st hs b hlt hret h
    obtain ⟨b', rfl⟩ : ∃ b', budget = b' + 1 := ⟨budget - 1, by omega⟩
    rw [Nat.add_zero] at h
    simp [execLoop, h]
  | succ i ih =>
    intro attempt budget st hs b hlt hret h
    obtain ⟨b', rfl⟩ : ∃ b', budget = b' + 1 := ⟨budget - 1, by omega⟩
    have h0 : retryableAttempt (oracle attempt) = true := by
      have := hret 0 (Nat.succ_pos i)
      simpa using this
    have hret' : ∀ j, j < i → retryableAttempt (oracle (attempt + 1 + j)) = true := by
      intro j hj
      have := hret (j + 1) (by omega)
      simpa [show attempt + (j + 1) = attempt + 1 + j by omega] using this
    have h' : oracle (attempt + 1 + i) = AttemptResult.http 429 hs b := by
      simpa [show attempt + (i + 1) = attempt + 1 + i by omega] using h
    cases ho : oracle attempt with
    | connErr =>
      have step : execLoop oracle attempt (b' + 1) st =
          execLoop oracle (attempt + 1) b' ⟨true, 0, [], []⟩ := by
        simp [execLoop, ho]
      rw [step]
      have := ih (attempt + 1) b' ⟨true, 0, [], []⟩ hs b (by omega) hret' h'
      simpa [show attempt + 1 + i + 1 = attempt + (i + 1) + 1 by omega] using this
    | http s hs' b2 =>
      have hs500 : s ≥ 500 := by
        have := h0
        rw [ho] at this
        simpa [retryableAttempt] using this
      have hne : ¬ (s = 429) := by omega
      have step : execLoop oracle attempt (b' + 1) st =
          execLoop oracle (attempt + 1) b' ⟨true, s, hs', b2⟩ := by
        simp [execLoop, ho, hne, hs500]
      rw [step]
      have := ih (attempt + 1) b' ⟨true, s, hs', b2⟩ hs b (by omega) hret' h'
      simpa [show attempt + 1 + i + 1 = attempt + (i + 1) + 1 by omega] using this

/-- Any trip the loop performs with a trigger other than `Trigger429`
requests the 30-second default duration. -/
theorem execLoop_trip_non429 (oracle : Nat → AttemptResult) :
    ∀ (budget attempt : Nat) (st : LoopState) (t : CircuitBreakerTrigger) (d : Int),
      (execLoop oracle attempt budget st).trip = some (t, d) →
      t ≠ CircuitBreakerTrigger.Trigger429 → d = defaultRetryAfterSec := by
  intro budget
  induction budget with
  | zero =>
    intro attempt st t d h hne
    have h' : (execFinish st attempt).trip = some (t, d) := by simpa [execLoop] using h
    rw [execFinish_trip] at h'
    by_cases h1 : st.lastErr
    · by_cases h2 : st.lastStatus ≥ 500
      · simp [h1, h2] at h'
        exact h'.2.symm
      · by_cases h3 : st.lastStatus = 0
        · simp [h1, h2, h3] at h'
          exact h'.2.symm
        · simp [h1, h2, h3] at h'
    · simp [h1] at h'
  | succ b ih =>
    intro attempt st t d h hne
    cases ho : oracle attempt with
    | connErr =>
      have step : execLoop oracle attempt (b + 1) st =
          execLoop oracle (attempt + 1) b ⟨true, 0, [], []⟩ := by
        simp [execLoop, ho]
      rw [step] at h
      exact ih (attempt + 1) _ t d h hne
    | http s hs bd =>
      by_cases h429 : s = 429
      · rw [show execLoop oracle attempt (b + 1) st =
            ⟨attempt + 1, some (CircuitBreakerTrigger.Trigger429, parseRetryAfter hs),
              429, hs, bd, false⟩ by simp [execLoop, ho, h429]] at h
        simp at h
        exact absurd h.1.symm hne
      · by_cases h5 : s ≥ 500
        · have step : execLoop oracle attempt (b + 1) st =
              execLoop oracle (attempt + 1) b ⟨true, s, hs, bd⟩ := by
            simp [execLoop, ho, h429, h5]
          rw [step] at h
          exact ih (attempt + 1) _ t d h hne
        · rw [show execLoop oracle attempt (b + 1) st =
              ⟨attempt + 1, none, s, hs, bd, false⟩ by simp [execLoop, ho, h429, h5]] at h
          simp at h

/-- C4: a 429 from the provider ends the retry loop at once — no further
attempt is issued, the breaker is tripped with the rate-limit trigger and
the parsed `Retry-After` duration, and the 429 response is returned to
the caller; `parseRetryAfter` yields the header value exactly when it is
a positive integer (the 30-second default otherwise, and it is itself
always positive, so `Trip` installs it verbatim); every trip with a
different trigger requests the 30-second default duration. -/
theorem c4_retry_429 (maxRetries : Nat) (mm : List Char) (ms : List (List Char))
    (oracle : Nat → AttemptResult) :
    (∀ i hs b, i < maxAttemptsFor maxRetries mm ms →
      (∀ j, j < i → retryableAttempt (oracle j) = true) →
      oracle i = AttemptResult.http 429 hs b →
      Execute maxRetries mm ms oracle =
        ⟨i + 1, some (CircuitBreakerTrigger.Trigger429, parseRetryAfter hs), 429, hs, b, false⟩) ∧
    (∀ t d, (Execute maxRetries mm ms oracle).trip = some (t, d) →
      t ≠ CircuitBreakerTrigger.Trigger429 → d = defaultRetryAfterSec) ∧
    (∀ hs n, goAtoi (headerGet hs ("Retry-After".data)) = some n → 0 < n →
      parseRetryAfter hs = n) ∧
    (∀ hs, 0 < parseRetryAfter hs) ∧
    (∀ cb trigger d nowMs, 0 < d →
      (CircuitBreaker.Trip cb trigger d nowMs).retryAfterSec = d ∨ cb.enabled = false) := by
  refine ⟨?_, ?_, ?_, ?_, ?_⟩
  · intro i hs b hlt hret h
    have := execLoop_first_429 oracle i 0 (maxAttemptsFor maxRetries mm ms)
      ⟨false, 0, [], []⟩ hs b hlt (by simpa using hret) (by simpa using h)
    simpa [Execute] using this
  · intro t d h hne
    exact execLoop_trip_non429 oracle _ 0 _ t d (by simpa [Execute] using h) hne
  · intro hs n h hpos
    unfold parseRetryAfter
    by_cases he : headerGet hs ("Retry-After".data) = []
    · rw [he] at h
      simp [goAtoi] at h
    · simp only [he, if_false, h]
      have hn : ¬ (n ≤ 0) := by omega
      simp [hn]
  · intro hs
    unfold parseRetryAfter
    split
    · decide
    · split
      · decide
      · split
        · decide
        · omega
  · intro cb trigger d nowMs hd
    by_cases he : cb.enabled
    · left
      simp [CircuitBreaker.Trip, he, show d > 0 by omega]
    · right
      simpa using he

/-- C4 (witness): with `max_retries = 3` and a first attempt answering
429 with `Retry-After: 5`, the loop stops after one attempt, trips with
`(Trigger429, 5)` and returns the 429. -/
theorem c4_witness :
    Execute 3 [] [] c4oracle =
      ⟨1, some (CircuitBreakerTrigger.Trigger429, 5), 429,
        [("Retry-After".data, "5".data)], "ratelimited".data, false⟩ :=
  (c4_retry_429 3 [] [] c4oracle).1 0 _ _ (by decide)
    (fun j hj => absurd hj (Nat.not_lt_zero j)) rfl

/-- C5: the retry loop issues at most `1 + max_retries` HTTP attempts,
and exactly one attempt when the call carries an MCP method outside the
configured retryable set, regardless of `max_retries`. -/
theorem c5_attempt_count (maxRetries : Nat) (mm : List Char) (ms : List (List Char))
    (oracle : Nat → AttemptResult) :
    (Execute maxRetries mm ms oracle).attempts ≤ 1 + maxRetries ∧
    (mm ≠ [] → isMCPMethodRetryable mm ms = false →
      (Execute maxRetries mm ms oracle).attempts = 1) := by
  constructor
  · have h := execLoop_attempts_le oracle (maxAttemptsFor maxRetries mm ms) 0 ⟨false, 0, [], []⟩
    have h2 : maxAttemptsFor maxRetries mm ms ≤ 1 + maxRetries := by
      unfold maxAttemptsFor
      split
      · omega
      · omega
    calc (Execute maxRetries mm ms oracle).attempts
        ≤ 0 + maxAttemptsFor maxRetries mm ms := h
      _ ≤ 1 + maxRetries := by omega
  · intro h1 h2
    have hm : maxAttemptsFor maxRetries mm ms = 1 := by
      simp [maxAttemptsFor, h1, h2]
    have := execLoop_budget_one oracle 0 ⟨false, 0, [], []⟩
    simpa [Execute, hm] using this

/-- C5 (witness): `tools/call` outside the retry set `[tools/list]` gets
exactly one attempt even with `max_retries = 3` and a 500-answering
provider. -/
theorem c5_witness :
    (Execute 3 ("tools/call".data) ["tools/list".data] c5oracle).attempts = 1 :=
  (c5_attempt_count 3 ("tools/call".data) ["tools/list".data] c5oracle).2
    (by decide) (by decide)

/-- The MCP attachment of the response payload never changes the `state`
field. -/
theorem attachResponseMCP_state (e : Bool) (p : SidebandResponsePayload)
    (o : Option SidebandAccessRequest) : (attachResponseMCP e p o).state = p.state := by
  unfold attachResponseMCP
  repeat' split <;> try rfl

/-- The MCP attachment of the response payload never changes the `request`
field. -/
theorem attachResponseMCP_request (e : Bool) (p : SidebandResponsePayload)
    (o : Option SidebandAccessRequest) : (attachResponseMCP e p o).request = p.request := by
  unfold attachResponseMCP
  repeat' split <;> try rfl

/-- C7 (amended): an access-phase deny on MCP traffic with
`mcp_jsonrpc_errors` enabled answers with the parsed deny status, the
JSON-RPC error body (code from the fixed HTTP mapping, message the
original deny body), and `Content-Type: application/json` as the only
header — the provider's deny headers are dropped; the original id is
rendered as `null` when absent, and byte-identically whenever Go's JSON
re-encoding (`compactRaw`) leaves its raw bytes unchanged — in
particular for all integer and plain string ids. -/
theorem c7_mcp_deny (resp : SidebandAccessResponse) (deny : DenyResponse) (ctx : MCPContext)
    (hresp : resp.response = some deny) :
    (handleAccessResponse true (some ctx) resp =
      AccessOutcome.denied ⟨goAtoiOr deny.responseCode 403,
        formatMCPDenyResponse (goAtoiOr deny.responseCode 403) deny.body ctx.jsonrpcID,
        [("Content-Type".data, ["application/json".data])]⟩) ∧
    (ctx.jsonrpcID = none →
      formatMCPDenyResponse (goAtoiOr deny.responseCode 403) deny.body ctx.jsonrpcID =
        mcpDenyTemplate (httpStatusToJsonRPCError (goAtoiOr deny.responseCode 403))
          ("null".data) deny.body) ∧
    (∀ raw, ctx.jsonrpcID = some raw → jsonValid raw = true → compactRaw raw = raw →
      formatMCPDenyResponse (goAtoiOr deny.responseCode 403) deny.body ctx.jsonrpcID =
        mcpDenyTemplate (httpStatusToJsonRPCError (goAtoiOr deny.responseCode 403))
          raw deny.body) := by
  refine ⟨?_, ?_, ?_⟩
  · unfold handleAccessResponse
    rw [hresp]
    rfl
  · intro h
    simp [formatMCPDenyResponse, h, mcpDenyTemplate]
  · intro raw h hv hc
    simp [formatMCPDenyResponse, h, hv, hc, mcpDenyTemplate]

/-- C7 (counterexample): for the deny with status 403 on an MCP request
whose id is the string `"<"`, the body the client receives differs from
the claimed template carrying the id byte-identically — Go's encoder
emits `"<"` for it. -/
theorem c7_counterexample :
    handleAccessResponse true (some c7ctxBad) c7resp ≠
      AccessOutcome.denied ⟨403,
        mcpDenyTemplate (-32600) ("\"<\"".data) ("denied".data),
        [("Content-Type".data, ["application/json".data])]⟩ := by decide

/-- C7 (witness): the amended theorem applied at the deny with status 403
and integer id 1 — that id is reproduced byte-identically and the deny
headers are dropped. -/
theorem c7_witness :
    handleAccessResponse true (some c7ctxGood) c7resp =
      AccessOutcome.denied ⟨403,
        mcpDenyTemplate (-32600) ("1".data) ("denied".data),
        [("Content-Type".data, ["application/json".data])]⟩ := by
  have h := c7_mcp_deny c7resp c7deny c7ctxGood rfl
  have hb := h.2.2 ("1".data) rfl rfl rfl
  exact h.1.trans (by
    rw [hb]
    decide)

/-- C8 (amended): when `max_sideband_body_bytes` is positive and the
marshalled payload exceeds it, `composeAccessPayload` replaces the `body`
field by `TruncateBody body (max/2)` — which cuts at `max/2` and appends
the truncation marker only when `max/2` is positive and the body is
longer than `max/2`, and otherwise leaves the body unchanged — while the
MCP context, the extracted headers and the header list are untouched;
when the limit is zero (or not exceeded) the payload is unchanged. -/
theorem c8_truncation (maxB : Int) (req : SidebandAccessRequest) :
    ((0 : Int) < maxB → maxB < ((goMarshalAccessRequest req).length : Int) →
      enforceSidebandBodyLimit maxB req =
        { req with body := TruncateBody req.body (Int.tdiv maxB 2) } ∧
      (enforceSidebandBodyLimit maxB req).mcp = req.mcp ∧
      (enforceSidebandBodyLimit maxB req).extractedHeaders = req.extractedHeaders ∧
      (enforceSidebandBodyLimit maxB req).headers = req.headers) ∧
    (maxB ≤ 0 ∨ ((goMarshalAccessRequest req).length : Int) ≤ maxB →
      enforceSidebandBodyLimit maxB req = req) ∧
    (∀ (b : List Char) (m : Int), 0 < m → m < (b.length : Int) →
      TruncateBody b m = b.take m.toNat ++ ("... [truncated, ".data)
        ++ (toString b.length).data ++ (" bytes]".data)) ∧
    (∀ (b : List Char) (m : Int), m ≤ 0 ∨ (b.length : Int) ≤ m → TruncateBody b m = b) := by
  refine ⟨?_, ?_, ?_, ?_⟩
  · intro h1 h2
    have he : enforceSidebandBodyLimit maxB req =
        { req with body := TruncateBody req.body (Int.tdiv maxB 2) } := by
      unfold enforceSidebandBodyLimit
      rw [if_pos h1, if_pos (by omega)]
    exact ⟨he, by rw [he], by rw [he], by rw [he]⟩
  · intro h
    unfold enforceSidebandBodyLimit
    rcases h with h | h
    · rw [if_neg (by omega)]
    · by_cases h1 : (0 : Int) < maxB
      · rw [if_pos h1, if_neg (by omega)]
      · rw [if_neg h1]
  · intro b m h1 h2
    unfold TruncateBody
    rw [if_neg (by omega)]
  · intro b m h
    unfold TruncateBody
    rw [if_pos (by omega)]

set_option maxRecDepth 16384 in
/-- C8 (counterexample): an access payload with an empty body whose
marshalled size (envelope and MCP fields) exceeds the limit 100 is left
entirely unchanged — its `body` is not replaced by the
truncated-and-annotated form the claim promises whenever the serialized
size exceeds the positive limit. -/
theorem c8_counterexample :
    ((0 : Int) < 100 ∧ (100 : Int) < ((goMarshalAccessRequest c8smallReq).length : Int)) ∧
    enforceSidebandBodyLimit 100 c8smallReq = c8smallReq ∧
    (enforceSidebandBodyLimit 100 c8smallReq).body ≠
      c8smallReq.body.take 50 ++ ("... [truncated, ".data)
        ++ (toString c8smallReq.body.length).data ++ (" bytes]".data) := by
  refine ⟨⟨by decide, by decide⟩, by decide, by decide⟩

set_option maxRecDepth 16384 in
/-- C8 (witness): the amended theorem applied at the 200-byte body and
limit 100 — the body is cut to 50 bytes and annotated, the MCP context,
extracted headers and header list unchanged. -/
theorem c8_witness :
    enforceSidebandBodyLimit 100 c8bigReq =
      { c8bigReq with body := TruncateBody c8bigReq.body 50 } ∧
    (enforceSidebandBodyLimit 100 c8bigReq).mcp = c8bigReq.mcp ∧
    (enforceSidebandBodyLimit 100 c8bigReq).extractedHeaders = c8bigReq.extractedHeaders ∧
    (enforceSidebandBodyLimit 100 c8bigReq).headers = c8bigReq.headers :=
  (c8_truncation 100 c8bigReq).1 (by decide) (by decide)

/-- C9: in every composed `ResponsePayload` the `state` field and the
embedded `request` field are mutually exclusive; a nonempty state carried
from the access phase is attached with no `request`, and otherwise the
original `AccessRequest` is attached with no `state` (the original
request is always present in the program: `loadPerRequestContext` returns
the address of a stack value, which the final conjunct records). -/
theorem c9_state_request_exclusive (em : Bool) (m u b : List Char) (sc : Int)
    (hs : List (List Char × List (List Char))) (hv : List Char)
    (oreq : Option SidebandAccessRequest) (st : List Char) :
    (¬ ((composeResponsePayload em m u b sc hs hv oreq st).state.isSome = true ∧
        (composeResponsePayload em m u b sc hs hv oreq st).request.isSome = true)) ∧
    (st ≠ [] → (composeResponsePayload em m u b sc hs hv oreq st).state = some st ∧
      (composeResponsePayload em m u b sc hs hv oreq st).request = none) ∧
    (∀ r, st = [] → oreq = some r →
      (composeResponsePayload em m u b sc hs hv oreq st).request = some r ∧
      (composeResponsePayload em m u b sc hs hv oreq st).state = none) ∧
    (∀ ur um rs ms ss req stc, loadPerRequestContext ur um rs ms ss = some (req, stc) →
      (loadPerRequestContext ur um rs ms ss).map Prod.fst = some req) := by
  have hS : (composeResponsePayload em m u b sc hs hv oreq st).state =
      (attachStateOrRequest
        (composeResponseBase m u (responseBodyAfterSSE em hs b) sc (FormatHeaders hs) hv)
        st oreq).state := by
    unfold composeResponsePayload
    rw [attachResponseMCP_state]
  have hR : (composeResponsePayload em m u b sc hs hv oreq st).request =
      (attachStateOrRequest
        (composeResponseBase m u (responseBodyAfterSSE em hs b) sc (FormatHeaders hs) hv)
        st oreq).request := by
    unfold composeResponsePayload
    rw [attachResponseMCP_request]
  refine ⟨?_, ?_, ?_, ?_⟩
  · rw [hS, hR]
    by_cases hst : st = []
    · subst hst
      cases oreq with
      | none => simp [attachStateOrRequest, composeResponseBase]
      | some r => simp [attachStateOrRequest, composeResponseBase]
    · simp [attachStateOrRequest, hst, composeResponseBase]
  · intro hst
    rw [hS, hR]
    simp [attachStateOrRequest, hst, composeResponseBase]
  · intro r hst ho
    subst hst
    subst ho
    rw [hS, hR]
    simp [attachStateOrRequest, composeResponseBase]
  · intro ur um rs ms ss req stc h
    rw [h]
    rfl

/-- C9 (witness): with a nonempty state carried from the access phase the
composed payload has `state` set and no `request`; with an empty state it
embeds the original request and no `state`. -/
theorem c9_witness :
    ((composeResponsePayload false ("GET".data) ("https://svc/resource".data) []
        200 [] ("1.1".data) (some c9req) c9state).state = some c9state ∧
      (composeResponsePayload false ("GET".data) ("https://svc/resource".data) []
        200 [] ("1.1".data) (some c9req) c9state).request = none) ∧
    ((composeResponsePayload false ("GET".data) ("https://svc/resource".data) []
        200 [] ("1.1".data) (some c9req) []).request = some c9req ∧
      (composeResponsePayload false ("GET".data) ("https://svc/resource".data) []
        200 [] ("1.1".data) (some c9req) []).state = none) :=
  ⟨(c9_state_request_exclusive false ("GET".data) ("https://svc/resource".data) []
      200 [] ("1.1".data) (some c9req) c9state).2.1 (by decide),
   (c9_state_request_exclusive false ("GET".data) ("https://svc/resource".data) []
      200 [] ("1.1".data) (some c9req) []).2.2.1 c9req rfl rfl⟩

/-- Go `Char.ofNat` inverts `Char.toNat` on valid code points. -/
theorem char_toNat_ofNat_valid (n : Nat) (h : n.isValidChar) : (Char.ofNat n).toNat = n := by
  simp [Char.ofNat, Char.toNat, Char.ofNatAux, h]
  rfl

/-- ASCII lower-casing is idempotent. -/
theorem asciiToLower_idem (c : Char) : asciiToLower (asciiToLower c) = asciiToLower c := by
  unfold asciiToLower
  by_cases h : 65 ≤ c.toNat ∧ c.toNat ≤ 90
  · rw [if_pos h]
    have ht : (Char.ofNat (c.toNat + 32)).toNat = c.toNat + 32 :=
      char_toNat_ofNat_valid _ (Or.inl (by omega))
    rw [ht]
    rw [if_neg (by omega)]
  · rw [if_neg h, if_neg h]

/-- Lower-casing a string is idempotent. -/
theorem lowerStr_idem (s : List Char) : lowerStr (lowerStr s) = lowerStr s := by
  unfold lowerStr
  rw [List.map_map]
  exact List.map_congr_left (fun c _ => asciiToLower_idem c)

/-- Looking up the key just appended to the header map yields the old list
extended by the new value. -/
theorem lookupVals_append_self (m : List (List Char × List (List Char))) (k v : List Char) :
    lookupVals (appendHeaderValue m k v) k = some ((lookupVals m k).getD [] ++ [v]) := by
  induction m with
  | nil => simp [appendHeaderValue, lookupVals]
  | cons e rest ih =>
    by_cases h : e.1 = k
    · simp [appendHeaderValue, h, lookupVals]
    · simp [appendHeaderValue, h, lookupVals, ih]

/-- Appending under one key leaves lookups of other keys unchanged. -/
theorem lookupVals_append_other (m : List (List Char × List (List Char))) (k v k' : List Char)
    (h : k' ≠ k) :
    lookupVals (appendHeaderValue m k v) k' = lookupVals m k' := by
  induction m with
  | nil => simp [appendHeaderValue, lookupVals, Ne.symm h]
  | cons e rest ih =>
    by_cases he : e.1 = k
    · subst he
      simp [appendHeaderValue, lookupVals, Ne.symm h]
    · by_cases h2 : e.1 = k'
      · simp only [appendHeaderValue, if_neg he]
        simp [lookupVals, h2]
      · simp only [appendHeaderValue, if_neg he]
        simp [lookupVals, h2, ih]

/-- Gathering over concatenated wire entries concatenates the gathered
values. -/
theorem gatherVals_append (a b : List (List Char × List Char)) (k : List Char) :
    gatherVals (a ++ b) k = gatherVals a k ++ gatherVals b k := by
  simp [gatherVals, List.filterMap_append]

/-- Gathering over a cons of wire entries. -/
theorem gatherVals_cons (e : List Char × List Char) (ws : List (List Char × List Char))
    (k : List Char) :
    gatherVals (e :: ws) k = (if lowerStr e.1 = k then [e.2] else []) ++ gatherVals ws k := by
  by_cases h : lowerStr e.1 = k <;> simp [gatherVals, List.filterMap_cons, h]

/-- Lookup after folding wire entries into a header map: values gathered
under the key are appended to whatever the accumulator already held. -/
theorem flatten_fold_lookup (k : List Char) :
    ∀ (ws : List (List Char × List Char)) (acc : List (List Char × List (List Char))),
      lookupVals (ws.foldl (fun a e => appendHeaderValue a (lowerStr e.1) e.2) acc) k =
        match lookupVals acc k with
        | some vs => some (vs ++ gatherVals ws k)
        | none => if gatherVals ws k = [] then none else some (gatherVals ws k) := by
  intro ws
  induction ws with
  | nil =>
    intro acc
    cases h : lookupVals acc k <;> simp [gatherVals, h]
  | cons e ws ih =>
    intro acc
    rw [List.foldl_cons, ih, gatherVals_cons]
    by_cases he : lowerStr e.1 = k
    · rw [he, lookupVals_append_self, if_pos rfl]
      cases h : lookupVals acc k <;> simp [h]
    · rw [lookupVals_append_other _ _ _ _ (Ne.symm he), if_neg he]
      cases h : lookupVals acc k <;> simp [h]

/-- Gathering over the wire entries of one header name yields its value
list when the (lower-cased) name matches, else nothing. -/
theorem gather_entries (nm : List Char) (vs : List (List Char)) (k : List Char) :
    gatherVals (vs.map (fun v => (nm, v))) k = if lowerStr nm = k then vs else [] := by
  induction vs with
  | nil => simp [gatherVals]
  | cons v vs ih =>
    rw [List.map_cons, gatherVals_cons, ih]
    by_cases h : lowerStr nm = k <;> simp [h]

/-- Nothing is gathered under a key that no (lower-cased) name of the map
matches. -/
theorem gather_format_nil (k : List Char) :
    ∀ (m : List (List Char × List (List Char))),
      (∀ q ∈ m, lowerStr q.1 ≠ k) → gatherVals (FormatHeaders m) k = [] := by
  intro m
  induction m with
  | nil =>
    intro _
    simp [FormatHeaders, gatherVals]
  | cons p m ih =>
    intro h
    have hfmt : FormatHeaders (p :: m) =
        (p.2.map (fun v => (lowerStr p.1, v))) ++ FormatHeaders m := by
      simp [FormatHeaders]
    rw [hfmt, gatherVals_append, gather_entries, lowerStr_idem,
      if_neg (h p (List.mem_cons_self p m)), ih (fun q hq => h q (List.mem_cons_of_mem p hq))]
    rfl

/-- C3 (amended): for every header map whose keys are pairwise distinct
after lower-casing and whose value lists are all nonempty,
`FlattenHeaders (FormatHeaders m)` equals `m` with its keys lower-cased,
as maps (pointwise lookup), with the value order within each key
preserved. -/
theorem c3_roundtrip (m : List (List Char × List (List Char)))
    (hkeys : (m.map (fun p => lowerStr p.1)).Nodup)
    (hvals : ∀ p ∈ m, p.2 ≠ []) (k : List Char) :
    lookupVals (FlattenHeaders (FormatHeaders m)) k =
      lookupVals (m.map (fun p => (lowerStr p.1, p.2))) k := by
  unfold FlattenHeaders
  rw [flatten_fold_lookup]
  simp only [lookupVals]
  induction m with
  | nil => simp [FormatHeaders, gatherVals, lookupVals]
  | cons p m ih =>
    rw [List.map_cons, List.nodup_cons] at hkeys
    have hfmt : FormatHeaders (p :: m) =
        (p.2.map (fun v => (lowerStr p.1, v))) ++ FormatHeaders m := by
      simp [FormatHeaders]
    rw [hfmt, gatherVals_append, gather_entries, lowerStr_idem]
    by_cases hk : lowerStr p.1 = k
    · rw [if_pos hk]
      have htail : gatherVals (FormatHeaders m) k = [] := by
        apply gather_format_nil
        intro q hq hc
        exact hkeys.1 (hc.trans hk.symm ▸ List.mem_map_of_mem (fun p => lowerStr p.1) hq)
      rw [htail]
      have hne : p.2 ≠ [] := hvals p (List.mem_cons_self p m)
      simp [lookupVals, hk, hne]
    · rw [if_neg hk]
      have := ih hkeys.2 (fun q hq => hvals q (List.mem_cons_of_mem p hq))
      simpa [lookupVals, hk] using this

/-- C3 (counterexample): for the map carrying one key with an empty value
list, the round trip drops the key entirely, so
`FlattenHeaders (FormatHeaders m)` differs from `m` with lower-cased keys
at that key. -/
theorem c3_counterexample :
    lookupVals (FlattenHeaders (FormatHeaders c3emptyValMap)) ("a".data) ≠
      lookupVals (c3emptyValMap.map (fun p => (lowerStr p.1, p.2))) ("a".data) := by decide

/-- C3 (witness): the amended round trip applied to a map with a
mixed-case multi-valued key — value order within the key is preserved. -/
theorem c3_witness :
    (lookupVals (FlattenHeaders (FormatHeaders c3map)) ("accept".data) =
      lookupVals (c3map.map (fun p => (lowerStr p.1, p.2))) ("accept".data)) ∧
    lookupVals (c3map.map (fun p => (lowerStr p.1, p.2))) ("accept".data) =
      some ["text/html".data, "text/plain".data] :=
  ⟨c3_roundtrip c3map (by decide) (by decide) ("accept".data), by decide⟩

/-- Right-trimming yields a prefix of the original string. -/
theorem trimRightGo_prefix_self (s : List Char) : trimRightGo s <+: s := by
  unfold trimRightGo
  have h := List.reverse_prefix.mpr (List.dropWhile_suffix (l := s.reverse) goIsSpace)
  simpa using h

/-- A string is its right-trim followed by a run of white space. -/
theorem trimRightGo_decomp (s : List Char) :
    s = trimRightGo s ++ (s.reverse.takeWhile goIsSpace).reverse ∧
    ∀ c ∈ (s.reverse.takeWhile goIsSpace).reverse, goIsSpace c = true := by
  constructor
  · calc s = s.reverse.reverse := (List.reverse_reverse s).symm
      _ = ((List.takeWhile goIsSpace s.reverse) ++ (List.dropWhile goIsSpace s.reverse)).reverse := by
          rw [List.takeWhile_append_dropWhile]
      _ = (List.dropWhile goIsSpace s.reverse).reverse
          ++ (List.takeWhile goIsSpace s.reverse).reverse := by
          rw [List.reverse_append]
      _ = trimRightGo s ++ (s.reverse.takeWhile goIsSpace).reverse := rfl
  · intro c hc
    rw [List.mem_reverse] at hc
    exact List.mem_takeWhile_imp hc

/-- ASCII lower-casing fixes every Go white-space character. -/
theorem asciiToLower_space_fix (c : Char) (h : goIsSpace c = true) : asciiToLower c = c := by
  simp only [goIsSpace, decide_eq_true_eq] at h
  unfold asciiToLower
  rw [if_neg (by omega)]

/-- Lower-casing fixes a string of white space. -/
theorem lowerStr_space_fix (w : List Char) (hw : ∀ c ∈ w, goIsSpace c = true) :
    lowerStr w = w := by
  have h := List.map_congr_left (l := w) (f := asciiToLower) (g := id)
    (fun c hc => asciiToLower_space_fix c (hw c hc))
  simpa [lowerStr] using h

/-- For a pattern without white space, testing it against the lower-cased
right-trimmed string is the same as against the lower-cased string. -/
theorem isPrefixOf_lower_trimRight (p : List Char) (hp : ∀ c ∈ p, goIsSpace c = false)
    (s : List Char) :
    p.isPrefixOf (lowerStr (trimRightGo s)) = p.isPrefixOf (lowerStr s) := by
  rw [Bool.eq_iff_iff, List.isPrefixOf_iff_prefix, List.isPrefixOf_iff_prefix]
  constructor
  · intro h
    exact h.trans (List.IsPrefix.map asciiToLower (trimRightGo_prefix_self s))
  · intro h
    obtain ⟨hdec, hsp⟩ := trimRightGo_decomp s
    rw [hdec] at h
    rw [show lowerStr (trimRightGo s ++ (s.reverse.takeWhile goIsSpace).reverse) =
        lowerStr (trimRightGo s) ++ lowerStr ((s.reverse.takeWhile goIsSpace).reverse) from
      List.map_append _ _ _] at h
    rw [lowerStr_space_fix _ hsp] at h
    rw [List.prefix_iff_eq_take] at h
    by_cases hlen : p.length ≤ (lowerStr (trimRightGo s)).length
    · rw [List.take_append_eq_append_take,
        show p.length - (lowerStr (trimRightGo s)).length = 0 by omega] at h
      simp only [List.take_zero, List.append_nil] at h
      rw [List.prefix_iff_eq_take]
      exact h
    · push_neg at hlen
      exfalso
      rw [List.take_append_eq_append_take, List.take_of_length_le (by omega)] at h
      cases hw0 : (s.reverse.takeWhile goIsSpace).reverse with
      | nil =>
        rw [hw0] at h
        simp only [List.take_nil, List.append_nil] at h
        have := congrArg List.length h
        simp at this
        omega
      | cons c w' =>
        obtain ⟨m, hm⟩ : ∃ m, p.length - (lowerStr (trimRightGo s)).length = m + 1 :=
          ⟨p.length - (lowerStr (trimRightGo s)).length - 1, by omega⟩
        rw [hw0, hm, List.take_succ_cons] at h
        have hcp : c ∈ p := by
          rw [h]
          exact List.mem_append_right _ (List.mem_cons_self _ _)
        have hcs : goIsSpace c = true := hsp c (by rw [hw0]; exact List.mem_cons_self _ _)
        have hcf := hp c hcp
        rw [hcs] at hcf
        exact Bool.noConfusion hcf

/-- The content-type test of `sse.go` (`TrimSpace` then case-insensitive
prefix) agrees with the specification's wording (tolerate leading white
space): trailing white space cannot affect the prefix test. -/
theorem isSSEContentType_eq_spec (contentType : List Char) :
    isSSEContentType contentType =
      ("text/event-stream".data).isPrefixOf (lowerStr (trimLeftGo contentType)) := by
  unfold isSSEContentType trimSpaceGo
  exact isPrefixOf_lower_trimRight _ (by decide) (trimLeftGo contentType)

/-- Folding a keep-the-last-hit update over a list is taking the last
element of the `filterMap`. -/
theorem foldl_keepLast_eq (f : List Char → Option (List Char)) :
    ∀ (lines : List (List Char)) (acc : Option (List Char)),
      lines.foldl (fun a l => match f l with | some d => some d | none => a) acc =
        match (lines.filterMap f).getLast? with
        | some d => some d
        | none => acc := by
  intro lines
  induction lines with
  | nil =>
    intro acc
    simp
  | cons l ls ih =>
    intro acc
    rw [List.foldl_cons, ih]
    cases hf : f l with
    | none =>
      rw [List.filterMap_cons, hf]
    | some d =>
      rw [List.filterMap_cons, hf, List.getLast?_cons]
      cases hg : (List.filterMap f ls).getLast? <;> simp [hg]

/-- The per-line update of the Go loop equals the specification's
extract-then-filter step (the loop's explicit skip of empty payloads is
subsumed: the empty string is not valid JSON). -/
theorem sseLineCandidate_eq_filter (line : List Char) :
    sseLineCandidate line =
      Option.filter (fun d => jsonValid d && isJsonRPCResponse d)
        (if ("data:".data).isPrefixOf (trimSpaceGo line) then
          some (trimSpaceGo ((trimSpaceGo line).drop 5)) else none) := by
  unfold sseLineCandidate
  by_cases hpfx : ("data:".data).isPrefixOf (trimSpaceGo line) = true
  · rw [if_pos hpfx, if_pos hpfx]
    by_cases hd : trimSpaceGo ((trimSpaceGo line).drop 5) = []
    · rw [if_pos hd, hd]
      decide
    · rw [if_neg hd]
      simp [Option.filter]
  · rw [if_neg hpfx, if_neg hpfx]
    rfl

/-- The candidates the Go loop accepts, in order, are exactly the
specification's candidate payloads. -/
theorem sseSpecCandidates_eq (body : List Char) :
    (body.splitOn '
').filterMap sseLineCandidate = sseSpecCandidates body := by
  unfold sseSpecCandidates
  rw [List.filter_filterMap]
  exact List.filterMap_congr (fun l _ => sseLineCandidate_eq_filter l)

/-- C6: `ParseSSEFinalMessage` behaves exactly as specified — the input is
returned unchanged unless the content type begins with
`text/event-stream` (case-insensitive, tolerating leading white space),
and otherwise the result is the last `data:` payload (split on LF, per
line trimmed, prefix stripped, trimmed) that is valid JSON with
`jsonrpc == "2.0"` and a nonempty `id`, or the input unchanged when no
such payload exists. -/
theorem c6_sse_extraction (body contentType : List Char) :
    ParseSSEFinalMessage body contentType = sseSpecExtract body contentType := by
  unfold ParseSSEFinalMessage sseSpecExtract
  rw [isSSEContentType_eq_spec]
  by_cases hct : ("text/event-stream".data).isPrefixOf (lowerStr (trimLeftGo contentType)) = true
  · have hnn : ¬ ¬ (("text/event-stream".data).isPrefixOf (lowerStr (trimLeftGo contentType)) = true) :=
      fun hn => hn hct
    rw [if_neg hnn, if_neg hnn]
    by_cases hb : body = []
    · subst hb
      decide
    · rw [if_neg hb, foldl_keepLast_eq sseLineCandidate (body.splitOn '
') none,
        sseSpecCandidates_eq]
      cases hg : (sseSpecCandidates body).getLast? <;> simp [hg]
  · rw [if_pos hct, if_pos hct]

end PingAuth
